import Mathlib

/-!
# HealthWeave analysis pipeline - verification development

A shallow embedding of the HealthWeave backend (`backend/src`):

* the markdown section extractor (`extractSection`, `extractList`) and the
  analysis handler's report assembly (handlers/analysis.ts),
* the model-provider fallback chain of `BedrockService`
  (`analyzeHealthData`, `isBedrockUnavailable`, `handleBedrockFallback`,
  `invokeModel`, `invokeAnthropicDirect`, `invokeOllama`) (services/bedrock.ts),
* the PDF renderer (`stripMarkdown`, `cleanProblematicChars`,
  `renderMarkdownToPDF`, `generatePDF` and its table helpers)
  (services/report.ts).

Strings are modelled as `List Char`.  The JavaScript regular expressions used
by the source are concrete, so each one is embedded as a dedicated scanning
function that reproduces the engine's leftmost-match, greedy/lazy and
backtracking behaviour for that particular pattern.  JavaScript `\s` and
`String.trim` are modelled with the ASCII whitespace characters; `.`/`^`/`$`
in multiline mode treat `\n` and `\r` as line terminators, as JavaScript does.
All section-header strings used by the call sites start with an ASCII letter,
which the greedy `##+`/`\s+` modelling below relies on (noted at each use).
-/

namespace HW

/-- JavaScript whitespace class `\s`, restricted to ASCII. -/
def isWs (c : Char) : Bool :=
  c = ' ' || c = '\t' || c = '\n' || c = '\r' || c = '\x0b' || c = '\x0c'

/-- JavaScript line terminators recognised by `.`, multiline `^` and `$`. -/
def isLineTerm (c : Char) : Bool := c = '\n' || c = '\r'

/-- Negation of `isLineTerm`, the character class matched by `.`. -/
def notLineTerm (c : Char) : Bool := !(isLineTerm c)

def isDigitCh (c : Char) : Bool := '0' ≤ c && c ≤ '9'

def isUpperCh (c : Char) : Bool := 'A' ≤ c && c ≤ 'Z'

/-- ASCII lower-casing, as used by the `i` regex flag on ASCII input. -/
def lowerCh (c : Char) : Char :=
  if 'A' ≤ c && c ≤ 'Z' then Char.ofNat (c.toNat + 32) else c

/-- Case-insensitive character comparison (regex `i` flag, ASCII). -/
def lowEq (a b : Char) : Bool := lowerCh a = lowerCh b

def isBullet (c : Char) : Bool := c = '-' || c = '*' || c = '•'

/-- Test that `s` starts with the literal `pat`. -/
def startsWithL : List Char → List Char → Bool
  | [], _ => true
  | _ :: _, [] => false
  | p :: ps, c :: cs => p = c && startsWithL ps cs

/-- Test that `pat` occurs somewhere in `hay` (JavaScript `String.includes`). -/
def infixL (pat : List Char) : List Char → Bool
  | [] => startsWithL pat []
  | c :: cs => startsWithL pat (c :: cs) || infixL pat cs

/-- JavaScript `String.trim` (ASCII whitespace). -/
def trimJS (s : List Char) : List Char :=
  ((s.dropWhile isWs).reverse.dropWhile isWs).reverse

/-- Consume the literal `pat` case-insensitively; return what follows. -/
def chompCI : List Char → List Char → Option (List Char)
  | [], s => some s
  | _ :: _, [] => none
  | p :: ps, c :: cs => if lowEq p c then chompCI ps cs else none

/-! ## extractSection (backend/src/handlers/analysis.ts)

```
function extractSection(text: string, ...headers: string[]): string | null {
  for (const header of headers) {
    let regex = new RegExp(`##+\\s+${header}[\\s\\S]*?\\n([\\s\\S]*?)(?=\n##|$)`, 'i');
    ... return cleaned || null;
    regex = new RegExp(`\\*\\*${header}\\*\\*:?\\s*([\\s\\S]*?)(?=\\n\\*\\*|$)`, 'i');
    ... return match[1].trim();
    regex = new RegExp(`^${header}:?\\s*([\\s\\S]*?)(?=\\n[A-Z][^:]*:|$)`, 'im');
    ... return match[1].trim();
  }
  return null;
}
```
-/

/-- The lazy group `([\s\S]*?)(?=\n##|$)` of the markdown-header style:
capture up to the first occurrence of `\n##`, or to the end of the text. -/
def captureA : List Char → List Char
  | [] => []
  | c :: r => if c = '\n' && startsWithL ['#', '#'] r then [] else c :: captureA r

/-- Embeds `[\s\S]*?\n`: drop everything up to and including the first `\n`
(fails when there is no newline, and then the whole regex fails). -/
def dropAfterNl : List Char → Option (List Char)
  | [] => none
  | '\n' :: r => some r
  | _ :: r => dropAfterNl r

/-- One anchored attempt of `##+\s+header[\s\S]*?\n(group)(?=\n##|$)` at the
start of `s`.  `##+` and `\s+` are taken greedily; this is exact whenever the
header does not start with `#` or whitespace (true of every call site). -/
def matchAAt (header : List Char) (s : List Char) : Option (List Char) :=
  match s with
  | '#' :: '#' :: r0 =>
    let r1 := r0.dropWhile (fun c => c = '#')
    match r1 with
    | c :: _ =>
      if isWs c then
        match chompCI header (r1.dropWhile isWs) with
        | some r2 =>
          match dropAfterNl r2 with
          | some r3 => some (captureA r3)
          | none => none
        | none => none
      else none
    | [] => none
  | _ => none

/-- Leftmost match of the markdown-header style over the whole text. -/
def matchA (header : List Char) : List Char → Option (List Char)
  | [] => none
  | c :: rest =>
    match matchAAt header (c :: rest) with
    | some r => some r
    | none => matchA header rest

/-- Embeds `content.replace(/^##+.*$/m, '')`: delete the first line (at the start of
the string or after a line terminator) that begins with `##`, keeping its
terminator.  The `Bool` argument tracks whether we are at a line start. -/
def rmHashLineGo : Bool → List Char → List Char
  | _, [] => []
  | atLS, c :: r =>
    if atLS && c = '#' && startsWithL ['#'] r then (c :: r).dropWhile notLineTerm
    else c :: rmHashLineGo (isLineTerm c) r

def removeFirstHashLine (s : List Char) : List Char := rmHashLineGo true s

/-- The lazy group `([\s\S]*?)(?=\n\*\*|$)` of the bold-header style ('i'
flag only, so `$` is end of string). -/
def captureB : List Char → List Char
  | [] => []
  | c :: r => if c = '\n' && startsWithL ['*', '*'] r then [] else c :: captureB r

/-- One anchored attempt of `\*\*header\*\*:?\s*(group)(?=\n\*\*|$)`.
`\s*` is greedy; since the group can always extend to the end of the string
the engine never backtracks into it. -/
def matchBAt (header : List Char) (s : List Char) : Option (List Char) :=
  match s with
  | '*' :: '*' :: r0 =>
    match chompCI header r0 with
    | some ('*' :: '*' :: r1) =>
      let r2 := match r1 with
        | ':' :: t => t
        | _ => r1
      some (captureB (r2.dropWhile isWs))
    | _ => none
  | _ => none

/-- Leftmost match of the bold-header style. -/
def matchB (header : List Char) : List Char → Option (List Char)
  | [] => none
  | c :: rest =>
    match matchBAt header (c :: rest) with
    | some r => some r
    | none => matchB header rest

/-- One attempt of `^header:?\s*(group)(?=\n[A-Z][^:]*:|$)` ('im' flags) at a
line start.  With the `m` flag, `$` matches before every line terminator, so
the lazy group always stops at the first line terminator after the greedy
`\s*` run (the `\n[A-Z][^:]*:` alternative can never stop it earlier). -/
def matchCAt (header : List Char) (s : List Char) : Option (List Char) :=
  match chompCI header s with
  | some r1 =>
    let r2 := match r1 with
      | ':' :: t => t
      | _ => r1
    some ((r2.dropWhile isWs).takeWhile notLineTerm)
  | none => none

/-- Scan of the plain-header style over all line starts (`^` with `m`). -/
def matchCGo (header : List Char) : Bool → List Char → Option (List Char)
  | atLS, [] => if atLS then matchCAt header [] else none
  | atLS, c :: rest =>
    match (if atLS then matchCAt header (c :: rest) else none) with
    | some r => some r
    | none => matchCGo header (isLineTerm c) rest

def matchC (header : List Char) (text : List Char) : Option (List Char) :=
  matchCGo header true text

/-- Embeds `extractSection(text, ...headers)`.  For each header, in order, the three
styles are tried; the first matching style returns immediately (for the
markdown style the empty cleaned content returns `null`, i.e. `none`). -/
def extractSectionL (text : List Char) : List (List Char) → Option (List Char)
  | [] => none
  | h :: hs =>
    match matchA h text with
    | some raw =>
      let cleaned := trimJS (removeFirstHashLine (trimJS raw))
      if cleaned = [] then none else some cleaned
    | none =>
      match matchB h text with
      | some raw => some (trimJS raw)
      | none =>
        match matchC h text with
        | some raw => some (trimJS raw)
        | none => extractSectionL text hs

/-! ## extractList (backend/src/handlers/analysis.ts)

`extractList` resolves the section with `extractSection`, then tries in
order: the `**label:** detail` pattern, numbered lists, bulleted lists,
indented bullets, and finally a newline split with header-like lines
filtered out. -/

/-- The lazy `([^*]+?):\*\*` of the header pattern: shortest nonempty run of
non-`*` characters followed by the literal `:**`.  Returns the label and the
remainder after `:**`. -/
def grabLabelGo (acc : List Char) : List Char → Option (List Char × List Char)
  | ':' :: '*' :: '*' :: r => some (acc.reverse, r)
  | c :: r => if c = '*' then none else grabLabelGo (c :: acc) r
  | [] => none

def grabLabel : List Char → Option (List Char × List Char)
  | c :: r => if c = '*' then none else grabLabelGo [c] r
  | [] => none

def notNlStar (c : Char) : Bool := !(c = '\n' || c = '*')

/-- Embeds `[^\n*]+` (greedy, at least one character). -/
def g2First (s : List Char) : Option (List Char × List Char) :=
  let p := s.takeWhile notNlStar
  if p = [] then none else some (p, s.drop p.length)

/-- Does `s` match `\*\*|\d+\.|[-*•]|##` (the negative lookahead that ends a
continuation line of the header pattern)? -/
def contStop (s : List Char) : Bool :=
  startsWithL ['*', '*'] s ||
  (let d := s.takeWhile isDigitCh
   d ≠ [] && startsWithL ['.'] (s.drop d.length)) ||
  (match s with
   | c :: _ => isBullet c
   | [] => false) ||
  startsWithL ['#', '#'] s

/-- Embeds `(?:\n(?!\*\*|\d+\.|[-*•]|##)[^\n]+)*`: greedily take continuation lines.
Returns the matched text and the remainder.  Fuel-driven; the caller passes
the length of the input, which bounds the number of steps. -/
def g2Conts : Nat → List Char → List Char × List Char
  | 0, s => ([], s)
  | fuel + 1, s =>
    match s with
    | '\n' :: r =>
      if contStop r then ([], s)
      else
        let p := r.takeWhile (fun c => c ≠ '\n')
        if p = [] then ([], s)
        else
          let next := g2Conts fuel (r.drop p.length)
          ('\n' :: (p ++ next.1), next.2)
    | _ => ([], s)

/-- Attempt group 2 (`[^\n*]+(?:…)*`) at the current position. -/
def g2Attempt (s : List Char) : Option (List Char × List Char) :=
  match g2First s with
  | some (p, r) =>
    let next := g2Conts r.length r
    some (p ++ next.1, next.2)
  | none => none

/-- The greedy-with-backtracking `\s*` before group 2: try consuming `k`
whitespace characters, largest `k` first. -/
def tryWsBt (s : List Char) : Nat → Option (List Char × List Char)
  | 0 => g2Attempt s
  | k + 1 =>
    match g2Attempt (s.drop (k + 1)) with
    | some r => some r
    | none => tryWsBt s k

/-- One anchored attempt of the header pattern
`\*\*([^*]+?):\*\*\s*([^\n*]+(?:\n(?!\*\*|\d+\.|[-*•]|##)[^\n]+)*)`.
Returns `(label, group2, rest-after-match)`. -/
def matchHdrAt (s : List Char) : Option (List Char × List Char × List Char) :=
  match s with
  | '*' :: '*' :: r =>
    match grabLabel r with
    | some (label, afterStars) =>
      match tryWsBt afterStars (afterStars.takeWhile isWs).length with
      | some (g2, rest) => some (label, g2, rest)
      | none => none
    | none => none
  | _ => none

/-- Embeds `section.matchAll(headerPattern)`: all non-overlapping matches, scanning
left to right.  Each entry is `(label, group2, text-after-the-match)`. -/
def collectHdr : Nat → List Char → List (List Char × List Char × List Char)
  | 0, _ => []
  | _, [] => []
  | fuel + 1, c :: rest =>
    match matchHdrAt (c :: rest) with
    | some (l, g, r) => (l, g, r) :: collectHdr fuel r
    | none => collectHdr fuel rest

/-- First alternative `^\*\*` of `/^\*\*|\n\d+\.|\n[-*•]|\n##|\n\n\n/`
(anchored, so only at position 0). -/
def markerAt0 (s : List Char) : Bool := startsWithL ['*', '*'] s

/-- The unanchored alternatives `\n\d+\.|\n[-*•]|\n##|\n\n\n`. -/
def markerHere (s : List Char) : Bool :=
  match s with
  | '\n' :: r =>
    (let d := r.takeWhile isDigitCh
     d ≠ [] && startsWithL ['.'] (r.drop d.length)) ||
    (match r with
     | c :: _ => isBullet c
     | [] => false) ||
    startsWithL ['#', '#'] r ||
    startsWithL ['\n', '\n'] r
  | _ => false

def hasMarker : List Char → Bool
  | [] => false
  | c :: r => markerHere (c :: r) || hasMarker r

def takeToMarker : List Char → List Char
  | [] => []
  | c :: r => if markerHere (c :: r) then [] else c :: takeToMarker r

/-- The empty-content fallback of the header-pattern branch:
`afterMatch.substring(0, nextMatch ? nextMatch.index : min(len, 500))`. -/
def cutMarker (s : List Char) : List Char :=
  if markerAt0 s then []
  else if hasMarker s then takeToMarker s
  else s.take 500

/-- Build the items of the header-pattern branch: `**header:** content`,
where empty direct content falls back to the following-lines cut. -/
def buildHdrItems : List (List Char × List Char × List Char) → List (List Char)
  | [] => []
  | (label, g2, rest) :: more =>
    let header := trimJS label
    let content0 := trimJS g2
    let content := if content0 = [] then trimJS (cutMarker rest) else content0
    if content ≠ [] then
      ('*' :: '*' :: header ++ ':' :: '*' :: '*' :: ' ' :: content) :: buildHdrItems more
    else buildHdrItems more

/-- Embeds `\s+.+$` after a list marker, with the JavaScript backtracking between the
greedy `\s+` run and `.+` (which cannot cross a line terminator).  `wRev` is
the reversed whitespace run still assigned to `\s+`; `giveBack` holds the
characters already handed back to `.+`.  Returns
`(ws-part, content-part, rest)`. -/
def wsDotGo (r3 : List Char) : List Char → List Char →
    Option (List Char × List Char × List Char)
  | [], _ => none
  | c :: wRev, giveBack =>
    let rem := giveBack ++ r3
    let content := rem.takeWhile notLineTerm
    if content = [] then wsDotGo r3 wRev (c :: giveBack)
    else some ((c :: wRev).reverse, content, rem.drop content.length)

/-- One attempt of `^\d+\.\s+.+$` ('gm') at a line start.  Returns
`(full match, the .+ group, rest)`. -/
def matchNumberedAt (s : List Char) : Option (List Char × List Char × List Char) :=
  let d := s.takeWhile isDigitCh
  if d = [] then none
  else
    match s.drop d.length with
    | '.' :: r2 =>
      let w := r2.takeWhile isWs
      if w = [] then none
      else
        match wsDotGo (r2.drop w.length) w.reverse [] with
        | some (wPart, content, rest) =>
          some (d ++ '.' :: (wPart ++ content), content, rest)
        | none => none
    | _ => none

/-- All matches of `/^\d+\.\s+.+$/gm`: `(full match, group)` pairs. -/
def collectNumbered : Nat → Bool → List Char → List (List Char × List Char)
  | 0, _, _ => []
  | _, _, [] => []
  | fuel + 1, atLS, c :: rest =>
    match (if atLS then matchNumberedAt (c :: rest) else none) with
    | some (m, g, r) => (m, g) :: collectNumbered fuel false r
    | none => collectNumbered fuel (isLineTerm c) rest

/-- One attempt of `^[-*•]\s+.+$` ('gm') at a line start. -/
def matchBulletAt (s : List Char) : Option (List Char × List Char × List Char) :=
  match s with
  | c :: r1 =>
    if isBullet c then
      let w := r1.takeWhile isWs
      if w = [] then none
      else
        match wsDotGo (r1.drop w.length) w.reverse [] with
        | some (wPart, content, rest) => some (c :: (wPart ++ content), content, rest)
        | none => none
    else none
  | [] => none

/-- All matches of `/^[-*•]\s+.+$/gm`. -/
def collectBullets : Nat → Bool → List Char → List (List Char × List Char)
  | 0, _, _ => []
  | _, _, [] => []
  | fuel + 1, atLS, c :: rest =>
    match (if atLS then matchBulletAt (c :: rest) else none) with
    | some (m, g, r) => (m, g) :: collectBullets fuel false r
    | none => collectBullets fuel (isLineTerm c) rest

/-- One attempt of `^\s*[-*•]\s+.+$` ('gm') at a line start (leading `\s*`
greedy; no backtracking is possible since a shorter run would put a
whitespace character where the bullet is required). -/
def matchSpacedAt (s : List Char) : Option (List Char × List Char × List Char) :=
  let w0 := s.takeWhile isWs
  match s.drop w0.length with
  | c :: r1 =>
    if isBullet c then
      let w := r1.takeWhile isWs
      if w = [] then none
      else
        match wsDotGo (r1.drop w.length) w.reverse [] with
        | some (wPart, content, rest) =>
          some (w0 ++ c :: (wPart ++ content), content, rest)
        | none => none
    else none
  | [] => none

/-- All matches of `/^\s*[-*•]\s+.+$/gm`. -/
def collectSpaced : Nat → Bool → List Char → List (List Char × List Char)
  | 0, _, _ => []
  | _, _, [] => []
  | fuel + 1, atLS, c :: rest =>
    match (if atLS then matchSpacedAt (c :: rest) else none) with
    | some (m, g, r) => (m, g) :: collectSpaced fuel false r
    | none => collectSpaced fuel (isLineTerm c) rest

/-- Embeds `item.replace(/^\d+\.\s+/, '')` (no-op when the prefix does not match). -/
def stripNumPrefix (m : List Char) : List Char :=
  let d := m.takeWhile isDigitCh
  if d = [] then m
  else
    match m.drop d.length with
    | '.' :: r2 =>
      let w := r2.takeWhile isWs
      if w = [] then m else r2.drop w.length
    | _ => m

/-- Embeds `item.replace(/^[-*•]\s+/, '')`. -/
def stripBulPrefix (m : List Char) : List Char :=
  match m with
  | c :: r1 =>
    if isBullet c then
      let w := r1.takeWhile isWs
      if w = [] then m else r1.drop w.length
    else m
  | [] => m

/-- Embeds `item.replace(/^\s*[-*•]\s+/, '')`. -/
def stripSpacedPrefix (m : List Char) : List Char :=
  let w0 := m.takeWhile isWs
  match m.drop w0.length with
  | c :: r1 =>
    if isBullet c then
      let w := r1.takeWhile isWs
      if w = [] then m else r1.drop w.length
    else m
  | [] => m

/-- Embeds `line.match(/^##/)`. -/
def startsHashHash (l : List Char) : Bool := startsWithL ['#', '#'] l

/-- Embeds `line.match(/^#{1,6}\s/)`.  A run of more than six `#` cannot match:
backtracking still leaves a `#` where whitespace is required. -/
def startsHashesWs (l : List Char) : Bool :=
  let h := l.takeWhile (fun c => c = '#')
  1 ≤ h.length && h.length ≤ 6 &&
    (match l.drop h.length with
     | c :: _ => isWs c
     | [] => false)

/-- Embeds `line.match(/^\*\*[^*]+\*\*\s*$/)` (standalone bold line). -/
def isStandaloneBold (l : List Char) : Bool :=
  match l with
  | '*' :: '*' :: r =>
    let mid := r.takeWhile (fun c => c ≠ '*')
    mid ≠ [] &&
      (match r.drop mid.length with
       | '*' :: '*' :: r3 => r3.all isWs
       | _ => false)
  | _ => false

/-- Embeds `line.match(/^\*\*[^*]+:\*\*\s*$/)`: the greedy `[^*]+` backtracks one
character so the run before `:**` must end in `:` and have length ≥ 2. -/
def isStandaloneBoldColon (l : List Char) : Bool :=
  match l with
  | '*' :: '*' :: r =>
    let mid := r.takeWhile (fun c => c ≠ '*')
    2 ≤ mid.length && mid.getLast? = some ':' &&
      (match r.drop mid.length with
       | '*' :: '*' :: r3 => r3.all isWs
       | _ => false)
  | _ => false

/-- Embeds `section.split('\n')` (exact `\n` split, as in JavaScript). -/
def splitNl : List Char → List (List Char)
  | [] => [[]]
  | '\n' :: r => [] :: splitNl r
  | c :: r =>
    match splitNl r with
    | line :: more => (c :: line) :: more
    | [] => [[c]]

/-- The last-resort branch of `extractList`: split on newlines, trim, and
drop empty lines and header-like lines. -/
def lastResortLines (sec : List Char) : List (List Char) :=
  ((splitNl sec).map trimJS).filter (fun line =>
    line ≠ [] && !startsHashHash line && !startsHashesWs line &&
      !isStandaloneBold line && !isStandaloneBoldColon line)

/-- The body of `extractList` once a non-empty section has been resolved. -/
def extractListCore (sec : List Char) : List (List Char) :=
  let hdrs := collectHdr (sec.length + 1) sec
  let items := buildHdrItems hdrs
  if hdrs ≠ [] && items ≠ [] then items
  else
    let nums := collectNumbered (sec.length + 1) true sec
    if nums ≠ [] then
      (nums.map (fun p => trimJS (stripNumPrefix p.1))).filter (fun i => i ≠ [])
    else
      let buls := collectBullets (sec.length + 1) true sec
      if buls ≠ [] then
        (buls.map (fun p => trimJS (stripBulPrefix p.1))).filter (fun i => i ≠ [])
      else
        let spaced := collectSpaced (sec.length + 1) true sec
        if spaced ≠ [] then
          (spaced.map (fun p => trimJS (stripSpacedPrefix p.1))).filter (fun i => i ≠ [])
        else lastResortLines sec

/-- Embeds `extractList(text, ...headers)`; `if (!section) return []` treats both
`null` and the empty string as missing. -/
def extractListL (text : List Char) (headers : List (List Char)) : List (List Char) :=
  match extractSectionL text headers with
  | none => []
  | some sec => if sec = [] then [] else extractListCore sec

/-! ## The analysis handler's report assembly (handlers/analysis.ts, `analyzeDocuments`) -/

def toL (s : String) : List Char := s.toList

def toS (l : List Char) : String := String.mk l

def summaryHeadersL : List (List Char) :=
  [toL "AI Summary", toL "Executive Summary", toL "Summary"]

def findingsHeadersL : List (List Char) := [toL "Key Findings", toL "Findings"]

def corrHeadersL : List (List Char) := [toL "Clinical Correlations", toL "Correlations"]

def recHeadersL : List (List Char) := [toL "Recommendations", toL "Recommendation"]

def uncHeadersL : List (List Char) :=
  [toL "Uncertainties and Limitations", toL "Uncertainties", toL "Limitations"]

/-- JavaScript truthiness of a `string | null` value. -/
def truthy : Option (List Char) → Bool
  | none => false
  | some l => l ≠ []

/--
```
let enhancedSummary = summary || analysisText.substring(0, 2000) || 'Analysis complete';
if (clinicalCorrelations && summary) {
  enhancedSummary = `${summary}\n\n${clinicalCorrelations}`;
}
```
-/
def enhancedSummaryL (text : List Char) : List Char :=
  let summary := extractSectionL text summaryHeadersL
  let corr := extractSectionL text corrHeadersL
  let base :=
    match summary with
    | some l =>
      if l ≠ [] then l
      else if text.take 2000 ≠ [] then text.take 2000 else toL "Analysis complete"
    | none =>
      if text.take 2000 ≠ [] then text.take 2000 else toL "Analysis complete"
  match summary, corr with
  | some ls, some lc =>
    if ls ≠ [] && lc ≠ [] then ls ++ '\n' :: '\n' :: lc else base
  | _, _ => base

/-- The key-findings full-text fallback of the handler:
```
const allNumbered = analysisText.match(/^\d+\.\s+.+$/gm);
const allBulleted = analysisText.match(/^[-*•]\s+.+$/gm);
if (allNumbered ...) finalKeyFindings = allNumbered.slice(0, 10).map(... replace ... trim);
else if (allBulleted ...) finalKeyFindings = allBulleted.slice(0, 10).map(...);
```
-/
def kfFallbackScan (text : List Char) : List (List Char) :=
  if collectNumbered (text.length + 1) true text ≠ [] then
    ((collectNumbered (text.length + 1) true text).take 10).map
      (fun p => trimJS (stripNumPrefix p.1))
  else if collectBullets (text.length + 1) true text ≠ [] then
    ((collectBullets (text.length + 1) true text).take 10).map
      (fun p => trimJS (stripBulPrefix p.1))
  else []

def finalKeyFindingsL (text : List Char) : List (List Char) :=
  if extractListL text findingsHeadersL = [] ∧ text ≠ [] then
    if collectNumbered (text.length + 1) true text ≠ [] then
      ((collectNumbered (text.length + 1) true text).take 10).map
        (fun p => trimJS (stripNumPrefix p.1))
    else if collectBullets (text.length + 1) true text ≠ [] then
      ((collectBullets (text.length + 1) true text).take 10).map
        (fun p => trimJS (stripBulPrefix p.1))
    else extractListL text findingsHeadersL
  else extractListL text findingsHeadersL

/-- The lazy `[\s\S]*?(?=##|$)` of the recommendations-block regex: capture
up to the first `##` (anywhere, not only after a newline), or to the end. -/
def captureHH : List Char → List Char
  | [] => []
  | c :: r => if c = '#' && startsWithL ['#'] r then [] else c :: captureHH r

/-- One anchored attempt of `##\s+Recommendations[\s\S]*?(?=##|$)` ('i');
returns the full match (the block). -/
def matchRecAt (s : List Char) : Option (List Char) :=
  match s with
  | '#' :: '#' :: r0 =>
    (match r0 with
     | c :: _ =>
       if isWs c then
         let w := r0.takeWhile isWs
         match chompCI (toL "Recommendations") (r0.drop w.length) with
         | some r1 =>
           some (s.take (2 + w.length + (toL "Recommendations").length +
             (captureHH r1).length))
         | none => none
       else none
     | [] => none)
  | _ => none

/-- Embeds `analysisText.match(/##\s+Recommendations[\s\S]*?(?=##|$)/i)` (leftmost). -/
def findRecBlock : List Char → Option (List Char)
  | [] => none
  | c :: rest =>
    match matchRecAt (c :: rest) with
    | some b => some b
    | none => findRecBlock rest

/-- Embeds `item.replace(/^(\d+\.|[-*•])\s+/, '')`. -/
def stripRecMarker (m : List Char) : List Char :=
  let d := m.takeWhile isDigitCh
  if d ≠ [] then
    match m.drop d.length with
    | '.' :: r2 =>
      let w := r2.takeWhile isWs
      if w = [] then m else r2.drop w.length
    | _ => m
  else
    match m with
    | c :: r1 =>
      if isBullet c then
        let w := r1.takeWhile isWs
        if w = [] then m else r1.drop w.length
      else m
    | [] => m

/-- The numbered-else-bulleted item list of a recommendations block:
`recSection[0].match(/^\d+\.\s+.+$/gm) || recSection[0].match(/^[-*•]\s+.+$/gm)`. -/
def recBlockItems (block : List Char) : List (List Char × List Char) :=
  if collectNumbered (block.length + 1) true block ≠ [] then
    collectNumbered (block.length + 1) true block
  else collectBullets (block.length + 1) true block

def recFallbackScan (text : List Char) : List (List Char) :=
  match findRecBlock text with
  | some block =>
    if recBlockItems block ≠ [] then
      (recBlockItems block).map (fun p => trimJS (stripRecMarker p.1))
    else []
  | none => []

def finalRecommendationsL (text : List Char) : List (List Char) :=
  if extractListL text recHeadersL = [] ∧ text ≠ [] then
    match findRecBlock text with
    | some block =>
      if recBlockItems block ≠ [] then
        (recBlockItems block).map (fun p => trimJS (stripRecMarker p.1))
      else extractListL text recHeadersL
    | none => extractListL text recHeadersL
  else extractListL text recHeadersL

def kfPlaceholder : List Char := toL "Analysis completed. Review full report for details."

def recPlaceholder : List Char :=
  toL "Review the full analysis report with your healthcare provider."

/-- Embeds `keyFindings: finalKeyFindings.length > 0 ? finalKeyFindings : [placeholder]`. -/
def reportKeyFindingsL (text : List Char) : List (List Char) :=
  let f := finalKeyFindingsL text
  if f.length > 0 then f else [kfPlaceholder]

/-- Embeds `recommendations: finalRecommendations.length > 0 ? ... : [placeholder]`. -/
def reportRecommendationsL (text : List Char) : List (List Char) :=
  let r := finalRecommendationsL text
  if r.length > 0 then r else [recPlaceholder]

/-! ## Provider fallback chain (backend/src/services/bedrock.ts)

Provider calls are network I/O; the environment `BedrockEnv` records, for one
analysis, the outcome each provider would produce if invoked, together with
the configuration state (`AWS_ENDPOINT` set, `ANTHROPIC_API_KEY` set).  The
embedded functions return the produced value or thrown error together with
the ordered trace of providers actually invoked. -/

/-- The fields of a thrown JavaScript error that `isBedrockUnavailable`
inspects: `name`, `__type`, `$metadata.httpStatusCode`, `message`. -/
structure JsErr where
  name : Option String := none
  typeTag : Option String := none
  httpStatus : Option Nat := none
  message : Option String := none
deriving DecidableEq

/-- Embeds `new Error(msg)`. -/
def genericError (msg : String) : JsErr :=
  { name := some "Error", message := some msg }

/-- Embeds `error.message?.includes(sub)` (undefined message is falsy). -/
def msgIncludes (e : JsErr) (sub : String) : Bool :=
  match e.message with
  | none => false
  | some m => infixL (toL sub) (toL m)

/--
```
private isBedrockUnavailable(error: any): boolean {
  return !!(config.aws.endpoint && (
    error.name === 'InternalFailure' ||
    error.$metadata?.httpStatusCode === 501 ||
    error.__type === 'InternalFailure' ||
    error.message?.includes('bedrock-runtime') ||
    error.message?.includes('not yet been emulated')));
}
```
-/
def isBedrockUnavailable (endpointConfigured : Bool) (e : JsErr) : Bool :=
  endpointConfigured &&
    (e.name = some "InternalFailure" ||
     e.httpStatus = some 501 ||
     e.typeTag = some "InternalFailure" ||
     msgIncludes e "bedrock-runtime" ||
     msgIncludes e "not yet been emulated")

/-- Embeds `{ analysisText, modelUsed }`, the unified provider result. -/
structure ModelResult where
  analysisText : String
  modelUsed : String
deriving DecidableEq

/-- The relevant parts of a parsed Bedrock response body: `content[0].text`
when the `content` array is non-empty, and the optional `model` field. -/
structure BedrockResp where
  contentText : Option String := none
  model : Option String := none
deriving DecidableEq

/-- Ollama chat response: `message.content || response || text`, already
coalesced, plus the optional `model` field. -/
structure OllamaResp where
  text : String := ""
  model : Option String := none
deriving DecidableEq

inductive ProviderTag where
  | bedrock
  | anthropicDirect
  | ollama
deriving DecidableEq

/-- One analysis call's environment: configuration plus the outcome each
provider would produce when invoked.  The message-remapping of Ollama fetch
errors (timeout / connection-refused wording) is already folded into the
`ollamaOutcome` error, since no claim depends on those messages. -/
structure BedrockEnv where
  endpointConfigured : Bool
  anthropicConfigured : Bool
  modelId : String
  bedrockOutcome : Except JsErr BedrockResp
  anthropicOutcome : Except JsErr String
  ollamaOutcome : Except JsErr OllamaResp

/-- Embeds `invokeModel`: send to Bedrock, then
```
if (responseBody.content && responseBody.content.length > 0) {
  const modelUsed = responseBody.model ?? modelId;
  return { analysisText: responseBody.content[0].text,
           modelUsed: typeof modelUsed === 'string' ? modelUsed : modelId };
}
throw new Error('No content in Bedrock response');
```
-/
def invokeModel (env : BedrockEnv) : Except JsErr ModelResult :=
  match env.bedrockOutcome with
  | .error e => .error e
  | .ok resp =>
    match resp.contentText with
    | some t => .ok { analysisText := t, modelUsed := resp.model.getD env.modelId }
    | none => .error (genericError "No content in Bedrock response")

/-- Embeds `invokeAnthropicDirect` (the configured-client path): on empty joined
text, throw; otherwise the model identifier is the hard-coded
`claude-3-5-sonnet-20241022`. -/
def invokeAnthropicDirect (env : BedrockEnv) : Except JsErr ModelResult :=
  match env.anthropicOutcome with
  | .error e => .error e
  | .ok t =>
    if t = "" then .error (genericError "No content in Anthropic response")
    else .ok { analysisText := t, modelUsed := "claude-3-5-sonnet-20241022" }

/-- Embeds `invokeOllama`: on empty text the thrown error reaches the caller as
`AI analysis failed: No content in Ollama response` (rethrown by the catch
ladder); otherwise `modelUsed = data.model || 'mistral:latest'`. -/
def invokeOllama (env : BedrockEnv) : Except JsErr ModelResult :=
  match env.ollamaOutcome with
  | .error e => .error e
  | .ok resp =>
    if resp.text = "" then
      .error (genericError "AI analysis failed: No content in Ollama response")
    else
      .ok { analysisText := resp.text,
            modelUsed := match resp.model with
              | some m => if m = "" then "mistral:latest" else m
              | none => "mistral:latest" }

/-- Embeds `handleBedrockFallback`: try the Anthropic direct API when the client is
configured (its failure falls through), then Ollama.  The second component
is the trace of providers invoked. -/
def handleBedrockFallback (env : BedrockEnv) :
    Except JsErr ModelResult × List ProviderTag :=
  if env.anthropicConfigured then
    match invokeAnthropicDirect env with
    | .ok r => (.ok r, [.anthropicDirect])
    | .error _ =>
      match invokeOllama env with
      | .ok r => (.ok r, [.anthropicDirect, .ollama])
      | .error e => (.error e, [.anthropicDirect, .ollama])
  else
    match invokeOllama env with
    | .ok r => (.ok r, [.ollama])
    | .error e => (.error e, [.ollama])

/-- Embeds `analyzeHealthData`: invoke Bedrock; on an error classified unavailable,
run the fallback chain; otherwise log and `throw new Error('Failed to
analyze health data')`. -/
def analyzeHealthData (env : BedrockEnv) :
    Except JsErr ModelResult × List ProviderTag :=
  match invokeModel env with
  | .ok r => (.ok r, [.bedrock])
  | .error e =>
    if isBedrockUnavailable env.endpointConfigured e then
      let fb := handleBedrockFallback env
      (fb.1, .bedrock :: fb.2)
    else
      (.error (genericError "Failed to analyze health data"), [.bedrock])

/-! ## PDF rendering (backend/src/services/report.ts)

Drawing is modelled as a list of draw operations (`PdfOp`); geometric state
(cursor position, page breaks, wrapped-text heights) lives inside the PDF
library and is not part of any claim, so table/list drawing is modelled at
the granularity of one operation carrying the exact data drawn.  The markdown
tokenizer (`marked.lexer`) and the per-token rendering are external,
possibly-throwing steps and are therefore parameters. -/

def backquoteCh : Char := Char.ofNat 96

def apostropheCh : Char := Char.ofNat 39

/-- Embeds `text.replaceAll(/\*\*([^*]+)\*\*/g, '$1')`.  On a failed attempt the
engine advances one character (to the second `*`).  Fuel-driven with
`length + 1` fuel, which bounds the number of scan steps. -/
def replStarPair : Nat → List Char → List Char
  | 0, s => s
  | fuel + 1, s =>
    match s with
    | '*' :: '*' :: r =>
      let g := r.takeWhile (fun c => c ≠ '*')
      (if g ≠ [] then
        match r.drop g.length with
        | '*' :: '*' :: rest => g ++ replStarPair fuel rest
        | _ => '*' :: replStarPair fuel ('*' :: r)
      else '*' :: replStarPair fuel ('*' :: r))
    | c :: r => c :: replStarPair fuel r
    | [] => []

/-- Embeds `replaceAll` of `d(​[^d]+)d` with the group, for a single delimiter
character `d` (the `*`, `_` and backtick italic/code patterns).  After the
maximal run of non-`d` characters, a non-empty remainder necessarily starts
with `d`. -/
def replDelim (d : Char) : Nat → List Char → List Char
  | 0, s => s
  | fuel + 1, s =>
    match s with
    | [] => []
    | c :: r =>
      if c = d then
        let g := r.takeWhile (fun x => x ≠ d)
        (if g ≠ [] then
          match r.drop g.length with
          | _ :: rest => g ++ replDelim d fuel rest
          | [] => c :: replDelim d fuel r
        else c :: replDelim d fuel r)
      else c :: replDelim d fuel r

/-- Embeds `replaceAll(/\[([^\]]+)\]\([^)]+\)/g, '$1')` (markdown links). -/
def replLink : Nat → List Char → List Char
  | 0, s => s
  | fuel + 1, s =>
    match s with
    | [] => []
    | '[' :: r =>
      let g1 := r.takeWhile (fun c => c ≠ ']')
      (if g1 ≠ [] then
        match r.drop g1.length with
        | ']' :: '(' :: r2 =>
          let g2 := r2.takeWhile (fun c => c ≠ ')')
          (if g2 ≠ [] then
            match r2.drop g2.length with
            | ')' :: rest => g1 ++ replLink fuel rest
            | _ => '[' :: replLink fuel r
          else '[' :: replLink fuel r)
        | _ => '[' :: replLink fuel r
      else '[' :: replLink fuel r)
    | c :: r => c :: replLink fuel r

/-- Literal `replaceAll` (non-empty pattern). -/
def replaceAllLit (pat rep : List Char) : Nat → List Char → List Char
  | 0, s => s
  | fuel + 1, s =>
    match s with
    | [] => []
    | c :: r =>
      if startsWithL pat s then rep ++ replaceAllLit pat rep fuel (s.drop pat.length)
      else c :: replaceAllLit pat rep fuel r

/-- Embeds `stripMarkdown` (services/report.ts): bold, italic, underscore, inline
code, links, then leftover `**` and `*`, then trim. -/
def stripMarkdownL (text : List Char) : List Char :=
  if text = [] then []
  else
    let c1 := replStarPair (text.length + 1) text
    let c2 := replDelim '*' (c1.length + 1) c1
    let c3 := replDelim '_' (c2.length + 1) c2
    let c4 := replDelim backquoteCh (c3.length + 1) c3
    let c5 := replLink (c4.length + 1) c4
    let c6 := replaceAllLit ['*', '*'] [] (c5.length + 1) c5
    let c7 := c6.filter (fun c => c ≠ '*')
    trimJS c7

def isAccentA (c : Char) : Bool := c = 'à' || c = 'á' || c = 'â' || c = 'ã' || c = 'ä'

/-- Embeds `replaceAll(/\/;[A-Z]+'[àáâãä]/g, '')` of `cleanProblematicChars`. -/
def replBadSeq : Nat → List Char → List Char
  | 0, s => s
  | fuel + 1, s =>
    match s with
    | [] => []
    | '/' :: ';' :: r =>
      let caps := r.takeWhile isUpperCh
      (if caps ≠ [] then
        match r.drop caps.length with
        | c1 :: c2 :: rest =>
          if c1 = apostropheCh && isAccentA c2 then replBadSeq fuel rest
          else '/' :: replBadSeq fuel (';' :: r)
        | _ => '/' :: replBadSeq fuel (';' :: r)
      else '/' :: replBadSeq fuel (';' :: r))
    | c :: r => c :: replBadSeq fuel r

/-- Embeds `cleanProblematicChars` (services/report.ts). -/
def cleanProblematicCharsL (text : List Char) : List Char :=
  if text = [] then []
  else
    let c1 := replBadSeq (text.length + 1) text
    let c2 := replaceAllLit (toL "&#39;") [apostropheCh] (c1.length + 1) c1
    let c3 := replaceAllLit (toL "&quot;") ['"'] (c2.length + 1) c2
    replaceAllLit (toL "&amp;") ['&'] (c3.length + 1) c3

/-- Block tokens produced by the markdown tokenizer (`marked.lexer`),
with the payloads the renderer's switch reads. -/
inductive MdToken where
  | heading (depth : Nat) (text : String)
  | paragraph (text : String)
  | listTok (ordered : Bool) (items : List String)
  | code (text : String)
  | blockquote (text : String)
  | hr
  | other (text : Option String)
deriving DecidableEq

/-- Draw operations; `providerCall` is included only so that its absence from
every rendering function can be stated. -/
inductive PdfOp where
  | text (content : String)
  | textJustified (content : String)
  | heading (size : Nat) (content : String)
  | listItem (ordered : Bool) (index : Nat) (content : String)
  | codeBlock (content : String)
  | quoteBlock (content : String)
  | hrLine
  | cardHeader (title : String)
  | keyValuesTable (rows : List (String × String × String × String))
  | findingsTable (rows : List (String × String))
  | mutedText (content : String)
  | recItemBold (index : Nat) (header : String) (detail : String)
  | recItemPlain (index : Nat) (content : String)
  | addPage
  | providerCall (p : ProviderTag)
deriving DecidableEq

/-- The switch of `renderMarkdownToPDF` over one token, at op granularity
(inline bold/citation splitting inside a block stays inside the op's
payload). -/
def renderTokenOps : MdToken → List PdfOp
  | .heading depth t =>
    let size := if depth = 2 then 14 else if depth = 3 then 12 else 11
    [.heading size (toS (cleanProblematicCharsL (toL t)))]
  | .paragraph t => [.text t]
  | .listTok ordered items =>
    items.enum.map (fun p => .listItem ordered (p.1 + 1) p.2)
  | .code t => [.codeBlock (toS (cleanProblematicCharsL (toL t)))]
  | .blockquote t => [.quoteBlock (toS (cleanProblematicCharsL (toL t)))]
  | .hr => [.hrLine]
  | .other none => []
  | .other (some t) => [.textJustified (toS (cleanProblematicCharsL (toL t)))]

def renderStep (t : MdToken) : Except String (List PdfOp) := .ok (renderTokenOps t)

/-- Run the token loop with a possibly-throwing per-token step; on a throw
the operations already drawn remain (the document is mutated in place) and
the flag records that the loop aborted. -/
def runTokens (step : MdToken → Except String (List PdfOp)) :
    List MdToken → List PdfOp × Bool
  | [] => ([], false)
  | t :: ts =>
    match step t with
    | .ok ops =>
      let next := runTokens step ts
      (ops ++ next.1, next.2)
    | .error _ => ([], true)

/-- The catch-block fallback of `renderMarkdownToPDF`: the whole markdown as
one plain-text draw, de-formatted. -/
def fallbackOp (md : List Char) : PdfOp :=
  .textJustified (toS (cleanProblematicCharsL (stripMarkdownL md)))

/-- Embeds `renderMarkdownToPDF`: empty markdown draws nothing; a tokenizer throw or
a throw in any token-rendering step is caught and the stripped plain text is
drawn instead (after whatever was already drawn). -/
def renderMarkdownToPDF (lexer : String → Except String (List MdToken))
    (step : MdToken → Except String (List PdfOp)) (markdown : String) :
    List PdfOp :=
  if markdown = "" then []
  else
    match lexer markdown with
    | .error _ => [fallbackOp (toL markdown)]
    | .ok tokens =>
      let run := runTokens step tokens
      if run.2 then run.1 ++ [fallbackOp (toL markdown)] else run.1

/-! ### generatePDF and its helpers -/

/-- Embeds `\s*(.+)` after `:\*\*` in the bold finding/recommendation regex: greedy
whitespace run tried longest-first, then `.+` needs one non-line-terminator
character. -/
def wsStarDot (s : List Char) : Nat → Option (List Char)
  | 0 =>
    let c := s.takeWhile notLineTerm
    if c = [] then none else some c
  | k + 1 =>
    let c := (s.drop (k + 1)).takeWhile notLineTerm
    if c ≠ [] then some c else wsStarDot s k

/-- One anchored attempt of `\*\*([^*]+):\*\*\s*(.+)`: the greedy `[^*]+`
backtracks exactly one character, so the non-`*` run must end in `:`.
Returns `(group1, group2)`. -/
def boldColonAt (s : List Char) : Option (List Char × List Char) :=
  match s with
  | '*' :: '*' :: r =>
    let g := r.takeWhile (fun c => c ≠ '*')
    (if 2 ≤ g.length && g.getLast? = some ':' then
      match r.drop g.length with
      | '*' :: '*' :: rest =>
        (match wsStarDot rest (rest.takeWhile isWs).length with
         | some content => some (g.dropLast, content)
         | none => none)
      | _ => none
    else none)
  | _ => none

/-- Leftmost match of `/\*\*([^*]+):\*\*\s*(.+)/` (`exec`). -/
def findBoldColon : List Char → Option (List Char × List Char)
  | [] => none
  | c :: r =>
    match boldColonAt (c :: r) with
    | some p => some p
    | none => findBoldColon r

/-- Embeds `parseFindingRow` (services/report.ts). -/
def parseFindingRow (f : List Char) : List Char × List Char :=
  match findBoldColon f with
  | some (cat, det) => (trimJS (stripMarkdownL cat), trimJS (stripMarkdownL det))
  | none => (trimJS (stripMarkdownL f), [])

def pdfSectionStops : List (List Char) :=
  [toL "recommendations", toL "clinical correlations",
   toL "uncertainties and limitations", toL "uncertainties",
   toL "questions for your doctor", toL "questions for the doctor",
   toL "key values (quick reference)", toL "key values", toL "references"]

def isSectionStop (item : List Char) : Bool :=
  pdfSectionStops.contains (trimJS ((stripMarkdownL item).map lowerCh))

/-- Embeds `filterFindingsBeforeSectionHeaders` (services/report.ts). -/
def filterFindingsBeforeSectionHeaders (fs : List (List Char)) : List (List Char) :=
  match fs.findIdx? isSectionStop with
  | none => fs
  | some 0 => []
  | some i => fs.take i

/-- One anchored attempt of `##\s+Key Findings[\s\S]*?(?=\n##|$)` ('i'). -/
def matchKFAt (s : List Char) : Option (List Char) :=
  match s with
  | '#' :: '#' :: r0 =>
    (match r0 with
     | c :: _ =>
       if isWs c then
         let w := r0.takeWhile isWs
         match chompCI (toL "Key Findings") (r0.drop w.length) with
         | some r1 =>
           some (s.take (2 + w.length + (toL "Key Findings").length +
             (captureA r1).length))
         | none => none
       else none
     | [] => none)
  | _ => none

def findKFBlock : List Char → Option (List Char)
  | [] => none
  | c :: rest =>
    match matchKFAt (c :: rest) with
    | some b => some b
    | none => findKFBlock rest

/-- Embeds `keyFindingsForDisplay` (services/report.ts). -/
def keyFindingsForDisplay (kf : List (List Char)) (fullReport : List Char) :
    List (List Char) :=
  let filtered := filterFindingsBeforeSectionHeaders kf
  if filtered ≠ [] then filtered
  else if fullReport = [] then []
  else
    match findKFBlock fullReport with
    | none => []
    | some block =>
      let nums := (collectNumbered (block.length + 1) true block).map
        (fun p => trimJS p.2)
      if nums ≠ [] then
        (filterFindingsBeforeSectionHeaders (nums.filter (fun x => x ≠ []))).take 15
      else
        let buls := (collectBullets (block.length + 1) true block).map
          (fun p => trimJS p.2)
        if buls ≠ [] then
          (filterFindingsBeforeSectionHeaders (buls.filter (fun x => x ≠ []))).take 15
        else []

structure KeyValueRow where
  name : String
  value : String
  unit : Option String := none
  referenceRange : Option String := none
deriving DecidableEq

/-- Embeds `(row.unit && stripMarkdown(row.unit)) || '—'`. -/
def kvCell (o : Option String) : String :=
  match o with
  | some u =>
    if u = "" then "—"
    else
      let s := toS (stripMarkdownL (toL u))
      if s = "" then "—" else s
  | none => "—"

def kvRow (row : KeyValueRow) : String × String × String × String :=
  (toS (stripMarkdownL (toL row.name)), toS (stripMarkdownL (toL row.value)),
   kvCell row.unit, kvCell row.referenceRange)

def findingCells (f : List Char) : String × String :=
  let pr := parseFindingRow f
  ((if pr.1 = [] then "—" else toS pr.1), (if pr.2 = [] then "—" else toS pr.2))

/-- The `AnalysisResult` record (backend/src/types), with `createdAt` as an
epoch value whose locale rendering is supplied by the environment. -/
structure AnalysisResult where
  id : String
  userId : String
  createdAt : Nat
  summary : String
  keyFindings : List String
  recommendations : List String
  citations : List String
  fullReport : String
  documentNames : Option (List String) := none
  modelUsed : Option String := none
  keyValues : Option (List KeyValueRow) := none
  questionsForDoctor : Option (List String) := none
deriving DecidableEq

/-- One recommendation draw of the `generatePDF` loop. -/
def recOp (p : Nat × String) : PdfOp :=
  match findBoldColon (toL p.2) with
  | some (hdr, content) =>
    .recItemBold (p.1 + 1) (toS hdr) (toS (stripMarkdownL content))
  | none => .recItemPlain (p.1 + 1) (toS (stripMarkdownL (toL p.2)))

/-- Embeds `generatePDF` header and metadata lines. -/
def pdfTitleOps (toLocale : Nat → String) (r : AnalysisResult) : List PdfOp :=
  [PdfOp.text "HealthWeave", PdfOp.text "Health Data Synthesis Report",
   PdfOp.text ("Report ID: " ++ r.id),
   PdfOp.text ("Generated: " ++ toLocale r.createdAt)]

/-- Embeds `if (report.modelUsed) doc.text(...)`. -/
def pdfModelLineOps (r : AnalysisResult) : List PdfOp :=
  match r.modelUsed with
  | some m => if m = "" then [] else [PdfOp.text ("Model: " ++ m)]
  | none => []

/-- The provenance list of source document names. -/
def pdfDocNamesOps (r : AnalysisResult) : List PdfOp :=
  match r.documentNames with
  | some names =>
    if names.length > 0 then
      PdfOp.text ("Based on " ++ toString names.length ++ " document(s):")
        :: names.map (fun n => PdfOp.text ("• " ++ n))
    else []
  | none => []

def pdfSummaryOps (r : AnalysisResult) : List PdfOp :=
  [PdfOp.cardHeader "AI Summary",
   PdfOp.textJustified (toS (stripMarkdownL (toL r.summary)))]

def pdfKeyValuesOps (r : AnalysisResult) : List PdfOp :=
  match r.keyValues with
  | some kvs =>
    if kvs.length > 0 then
      [PdfOp.cardHeader "Key Values (Quick Reference)",
       PdfOp.keyValuesTable (kvs.map kvRow)]
    else []
  | none => []

def pdfKeyFindingsOps (r : AnalysisResult) : List PdfOp :=
  PdfOp.cardHeader "Key Findings" ::
    (if (keyFindingsForDisplay (r.keyFindings.map toL) (toL r.fullReport)).length > 0 then
      [PdfOp.findingsTable
        ((keyFindingsForDisplay (r.keyFindings.map toL) (toL r.fullReport)).map findingCells)]
    else [PdfOp.mutedText "No specific findings identified."])

def pdfRecommendationOps (r : AnalysisResult) : List PdfOp :=
  PdfOp.cardHeader "Recommendations" ::
    (if r.recommendations.length > 0 then r.recommendations.enum.map recOp
     else [PdfOp.mutedText "No specific recommendations at this time."])

def pdfQuestionOps (r : AnalysisResult) : List PdfOp :=
  PdfOp.cardHeader "Questions for Your Doctor" ::
    (match r.questionsForDoctor with
     | some qs =>
       if qs.length > 0 then
         qs.enum.map (fun p =>
           PdfOp.text (toString (p.1 + 1) ++ ". " ++ toS (stripMarkdownL (toL p.2))))
       else [PdfOp.mutedText "None generated."]
     | none => [PdfOp.mutedText "None generated."])

/-- Embeds `if (report.fullReport)`: appendix with the whole markdown re-rendered. -/
def pdfAppendixOps (lexer : String → Except String (List MdToken))
    (r : AnalysisResult) : List PdfOp :=
  if r.fullReport ≠ "" then
    PdfOp.addPage :: PdfOp.cardHeader "Appendix: Full Analysis" ::
      renderMarkdownToPDF lexer renderStep r.fullReport
  else []

def pdfFooterOps : List PdfOp :=
  [PdfOp.text "This report is for informational purposes only and should be reviewed by a qualified healthcare provider."]

/-- Embeds `generatePDF` as its sequence of draw operations.  `toLocale` models
`Date.prototype.toLocaleString` of the ambient process locale, and `lexer`
models `marked.lexer`; both are fixed for a process. -/
def pdfOps (toLocale : Nat → String) (lexer : String → Except String (List MdToken))
    (r : AnalysisResult) : List PdfOp :=
  pdfTitleOps toLocale r ++ pdfModelLineOps r ++ pdfDocNamesOps r ++ pdfSummaryOps r
    ++ pdfKeyValuesOps r ++ pdfKeyFindingsOps r ++ pdfRecommendationOps r
    ++ pdfQuestionOps r ++ pdfAppendixOps lexer r ++ pdfFooterOps

/-! ## Remaining definitions used by the theorems -/

instance {ε α : Type} [DecidableEq ε] [DecidableEq α] : DecidableEq (Except ε α) :=
  fun a b =>
    match a, b with
    | .error e, .error f =>
      if h : e = f then .isTrue (congrArg Except.error h)
      else .isFalse (fun hc => h (Except.error.inj hc))
    | .ok x, .ok y =>
      if h : x = y then .isTrue (congrArg Except.ok h)
      else .isFalse (fun hc => h (Except.ok.inj hc))
    | .error _, .ok _ => .isFalse (fun hc => Except.noConfusion hc)
    | .ok _, .error _ => .isFalse (fun hc => Except.noConfusion hc)

/-- The pure report assembly of the analysis handler
(`const report: AnalysisResult = { ... }` in handlers/analysis.ts); the
generated id, user id and timestamp come from the request context. -/
def handlerReport (id userId : String) (createdAt : Nat) (analysisText : List Char) :
    AnalysisResult :=
  { id := id, userId := userId, createdAt := createdAt,
    summary := toS (enhancedSummaryL analysisText),
    keyFindings := (reportKeyFindingsL analysisText).map toS,
    recommendations := (reportRecommendationsL analysisText).map toS,
    citations := [],
    fullReport := toS analysisText }

/-- A line is a markdown heading (starts with `##`). -/
def isMdHeading (line : List Char) : Bool := startsWithL ['#', '#'] line

/-- A markdown heading line whose title matches the alias `h`
(case-insensitively, as a prefix of the title, matching the code's loose
header comparison). -/
def isHeadingFor (h line : List Char) : Bool :=
  let hs := line.takeWhile (fun c => c = '#')
  2 ≤ hs.length &&
    (let r := line.drop hs.length
     let w := r.takeWhile isWs
     w ≠ [] && (chompCI h (r.drop w.length)).isSome)

def joinNl : List (List Char) → List Char
  | [] => []
  | [l] => l
  | l :: ls => l ++ '\n' :: joinNl ls

def specGo (h : List Char) : List (List Char) → Option (List Char)
  | [] => none
  | line :: more =>
    if isHeadingFor h line then
      some (trimJS (joinNl (more.takeWhile (fun l => !isMdHeading l))))
    else specGo h more

/-- Modelled from the spec: "For all markdown inputs containing a recognized
heading and alias combination, `extractSection` returns exactly the text
between that heading and the next heading (or end of text), trimmed."  The
text between the first heading line matching the alias and the next markdown
heading line, trimmed; `none` when no heading matches. -/
def specSectionTextL (text h : List Char) : Option (List Char) :=
  specGo h (splitNl text)

/-- C5 counterexample input: a matched heading immediately followed by
another heading. -/
def c5Input : List Char := toL "## Summary\n## Details\nstuff"

/-- C2 counterexample: a Bedrock validation failure (not an "unavailable"
signature) with both fallback providers configured and healthy. -/
def cexErrC2 : JsErr :=
  { name := some "ValidationException", httpStatus := some 400,
    message := some "Malformed input request" }

def cexEnvC2 : BedrockEnv :=
  { endpointConfigured := true, anthropicConfigured := true,
    modelId := "mistral",
    bedrockOutcome := .error cexErrC2,
    anthropicOutcome := .ok "anthropic answer",
    ollamaOutcome := .ok { text := "ollama answer", model := some "mistral:latest" } }

/-- C3 witness environment: primary throws a LocalStack `InternalFailure`,
the Anthropic client is configured and succeeds. -/
def errC3 : JsErr :=
  { name := some "InternalFailure", httpStatus := some 501,
    message := some "bedrock-runtime is not yet been emulated" }

def envC3 : BedrockEnv :=
  { endpointConfigured := true, anthropicConfigured := true,
    modelId := "mistral",
    bedrockOutcome := .error errC3,
    anthropicOutcome := .ok "direct answer",
    ollamaOutcome := .ok { text := "local answer", model := some "mistral:latest" } }

/-- C4 witness input: no recognised section headers, so both `extractList`
calls yield zero items, but the raw text has list lines. -/
def c4Text : List Char := toL "intro\n1. alpha\n- beta"

/-- C8 witness report. -/
def sampleReport : AnalysisResult :=
  { id := "r1", userId := "u1", createdAt := 0, summary := "Summary *text*",
    keyFindings := ["**Hepatic:** ALT 45"], recommendations := ["**Follow-up:** repeat labs"],
    citations := [], fullReport := "## Key Findings\n1. **Hepatic:** ALT 45" }

/-! # Theorems -/

/-! ## Helper lemmas -/

theorem chompCI_self (l s : List Char) : chompCI l (l ++ s) = some s := by
  induction l with
  | nil => rfl
  | cons c cs ih => simp [chompCI, lowEq, ih]

theorem matchAAt_skip (h : List Char) (c : Char) (s : List Char) (hc : c ≠ '#') :
    matchAAt h (c :: s) = none := by
  unfold matchAAt
  split
  · rename_i heq
    exact absurd (List.cons.inj heq).1 hc
  · rfl

theorem matchA_append (h pre s : List Char) (hpre : '#' ∉ pre) :
    matchA h (pre ++ s) = matchA h s := by
  induction pre with
  | nil => rfl
  | cons p pre ih =>
    have hp : p ≠ '#' := fun he => hpre (he ▸ List.mem_cons_self p pre)
    have hrest : '#' ∉ pre := fun hm => hpre (List.mem_cons_of_mem _ hm)
    rw [List.cons_append]
    simp only [matchA, matchAAt_skip h p _ hp]
    exact ih hrest

theorem startsWithL_cons_false (p : Char) (ps : List Char) (c : Char) (cs : List Char)
    (h : p ≠ c) : startsWithL (p :: ps) (c :: cs) = false := by
  simp [startsWithL, h]

theorem captureA_cons (c : Char) (r : List Char)
    (h : (c = '\n' && startsWithL ['#', '#'] r) = false) :
    captureA (c :: r) = c :: captureA r := by
  simp [captureA, h]

theorem captureA_body (t : List Char) (body : List Char) (hb : '#' ∉ body) :
    captureA (body ++ '\n' :: '#' :: '#' :: t) = body := by
  induction body with
  | nil => simp [captureA, startsWithL]
  | cons b bs ih =>
    have hbs : '#' ∉ bs := fun hm => hb (List.mem_cons_of_mem _ hm)
    rw [List.cons_append, captureA_cons, ih hbs]
    cases bs with
    | nil =>
      rw [List.nil_append, startsWithL_cons_false '#' ['#'] '\n' _ (by decide)]
      simp
    | cons b2 bs2 =>
      have hb2 : b2 ≠ '#' :=
        fun he => hb (he ▸ List.mem_cons_of_mem _ (List.mem_cons_self b2 bs2))
      rw [List.cons_append, startsWithL_cons_false '#' ['#'] b2 _ (Ne.symm hb2)]
      simp

theorem rmHashLineGo_id (s : List Char) (hs : '#' ∉ s) : ∀ b, rmHashLineGo b s = s := by
  induction s with
  | nil => intro b; rfl
  | cons c r ih =>
    intro b
    have hc : c ≠ '#' := fun he => hs (he ▸ List.mem_cons_self c r)
    have hr : '#' ∉ r := fun hm => hs (List.mem_cons_of_mem _ hm)
    simp [rmHashLineGo, hc, ih hr]

theorem removeFirstHashLine_id (s : List Char) (hs : '#' ∉ s) :
    removeFirstHashLine s = s := rmHashLineGo_id s hs true

theorem mem_trimJS {a : Char} {s : List Char} (h : a ∈ trimJS s) : a ∈ s := by
  unfold trimJS at h
  rw [List.mem_reverse] at h
  have h1 := (List.dropWhile_sublist isWs).subset h
  rw [List.mem_reverse] at h1
  exact (List.dropWhile_sublist isWs).subset h1

theorem head_dropWhile (p : Char → Bool) :
    ∀ (s : List Char) (c : Char), (s.dropWhile p).head? = some c → p c = false := by
  intro s
  induction s with
  | nil => intro c h; simp [List.dropWhile] at h
  | cons a r ih =>
    intro c h
    by_cases ha : p a = true
    · rw [List.dropWhile_cons, if_pos ha] at h
      exact ih c h
    · rw [List.dropWhile_cons, if_neg ha] at h
      injection h with h
      rw [← h]
      exact Bool.eq_false_iff.mpr ha

theorem dropWhile_eq_self (p : Char → Bool) (s : List Char)
    (h : ∀ c, s.head? = some c → p c = false) : s.dropWhile p = s := by
  cases s with
  | nil => rfl
  | cons a r => rw [List.dropWhile_cons, if_neg (by simp [h a rfl])]

theorem prefix_head {u t : List Char} (hp : u <+: t) {c : Char}
    (hc : u.head? = some c) : t.head? = some c := by
  obtain ⟨v, hv⟩ := hp
  cases u with
  | nil => simp at hc
  | cons a r => rw [← hv]; simpa using hc

theorem trimJS_idem (s : List Char) : trimJS (trimJS s) = trimJS s := by
  have hrev : (trimJS s).reverse = (s.dropWhile isWs).reverse.dropWhile isWs := by
    unfold trimJS; rw [List.reverse_reverse]
  have hpre : trimJS s <+: s.dropWhile isWs := by
    refine List.reverse_suffix.mp ?_
    rw [hrev]
    exact List.dropWhile_suffix isWs
  have h1 : (trimJS s).dropWhile isWs = trimJS s := by
    refine dropWhile_eq_self isWs _ ?_
    intro c hc
    exact head_dropWhile isWs s c (prefix_head hpre hc)
  show (((trimJS s).dropWhile isWs).reverse.dropWhile isWs).reverse = trimJS s
  rw [h1, hrev, dropWhile_eq_self isWs _
    (fun c hc => head_dropWhile isWs (s.dropWhile isWs).reverse c hc), ← hrev,
    List.reverse_reverse]

/-! ## C6 -/

/-- C6: on the input `"## Key Findings\n1. **Hepatic:** ALT 45 (normal)\n2.
**Hematologic:** Platelets low"`, `extractList` with the header alias
`Key Findings` returns exactly the two emphasised `label: detail` lines,
each intact as one entry. -/
theorem c6_extractList_bold_rows :
    extractListL
      (toL "## Key Findings\n1. **Hepatic:** ALT 45 (normal)\n2. **Hematologic:** Platelets low")
      [toL "Key Findings"] =
      [toL "**Hepatic:** ALT 45 (normal)", toL "**Hematologic:** Platelets low"] := by
  decide

/-! ## C1 -/

/-- C1: for every model output, the report assembled by the analysis handler
has non-empty `keyFindings` and `recommendations`; when extraction and all
fallbacks produce zero items, the fixed placeholder strings are substituted. -/
theorem c1_report_lists_nonempty (id userId : String) (createdAt : Nat)
    (text : List Char) :
    (handlerReport id userId createdAt text).keyFindings ≠ [] ∧
    (handlerReport id userId createdAt text).recommendations ≠ [] ∧
    (finalKeyFindingsL text = [] →
      (handlerReport id userId createdAt text).keyFindings =
        ["Analysis completed. Review full report for details."]) ∧
    (finalRecommendationsL text = [] →
      (handlerReport id userId createdAt text).recommendations =
        ["Review the full analysis report with your healthcare provider."]) := by
  refine ⟨?_, ?_, ?_, ?_⟩
  · show (if (finalKeyFindingsL text).length > 0 then finalKeyFindingsL text
      else [kfPlaceholder]).map toS ≠ []
    by_cases hpos : (finalKeyFindingsL text).length > 0
    · simp only [if_pos hpos, ne_eq, List.map_eq_nil_iff]
      exact List.ne_nil_of_length_pos hpos
    · simp [if_neg hpos]
  · show (if (finalRecommendationsL text).length > 0 then finalRecommendationsL text
      else [recPlaceholder]).map toS ≠ []
    by_cases hpos : (finalRecommendationsL text).length > 0
    · simp only [if_pos hpos, ne_eq, List.map_eq_nil_iff]
      exact List.ne_nil_of_length_pos hpos
    · simp [if_neg hpos]
  · intro h
    show (if (finalKeyFindingsL text).length > 0 then finalKeyFindingsL text
      else [kfPlaceholder]).map toS = _
    rw [h]
    rfl
  · intro h
    show (if (finalRecommendationsL text).length > 0 then finalRecommendationsL text
      else [recPlaceholder]).map toS = _
    rw [h]
    rfl

/-- Witness for C1 at the empty model output. -/
theorem c1_witness :
    (handlerReport "id" "user" 0 (toL "")).keyFindings =
      ["Analysis completed. Review full report for details."] ∧
    (handlerReport "id" "user" 0 (toL "")).recommendations =
      ["Review the full analysis report with your healthcare provider."] :=
  ⟨(c1_report_lists_nonempty "id" "user" 0 (toL "")).2.2.1 (by decide),
   (c1_report_lists_nonempty "id" "user" 0 (toL "")).2.2.2 (by decide)⟩

/-! ## C2 -/

/-- C2 (amended): for every primary-provider error not classified
"unavailable" by `isBedrockUnavailable`, no fallback provider is invoked and
the failure is surfaced to the caller — but wrapped as the new generic
`Error('Failed to analyze health data')`, not as the original error object. -/
theorem c2_no_fallback_on_other_errors (env : BedrockEnv) (e : JsErr)
    (h1 : invokeModel env = .error e)
    (h2 : isBedrockUnavailable env.endpointConfigured e = false) :
    analyzeHealthData env =
      (.error (genericError "Failed to analyze health data"), [ProviderTag.bedrock]) := by
  simp [analyzeHealthData, h1, h2]

/-- C2 counterexample: a Bedrock `ValidationException` (endpoint configured,
fallback providers healthy).  No fallback happens, but the error that reaches
the caller is the generic wrapper, not the original failure — so "the
original failure propagates to the caller unchanged" is false. -/
theorem c2_counterexample :
    (analyzeHealthData cexEnvC2).1 =
      .error (genericError "Failed to analyze health data") ∧
    (analyzeHealthData cexEnvC2).1 ≠ .error cexErrC2 ∧
    (analyzeHealthData cexEnvC2).2 = [ProviderTag.bedrock] ∧
    isBedrockUnavailable cexEnvC2.endpointConfigured cexErrC2 = false := by
  decide

/-- Witness for C2's amended theorem at the concrete environment. -/
theorem c2_witness :
    analyzeHealthData cexEnvC2 =
      (.error (genericError "Failed to analyze health data"), [ProviderTag.bedrock]) :=
  c2_no_fallback_on_other_errors cexEnvC2 cexErrC2 (by decide) (by decide)

/-! ## C3 -/

theorem anthropicDirect_model (env : BedrockEnv) (r : ModelResult)
    (h : invokeAnthropicDirect env = .ok r) :
    r.modelUsed = "claude-3-5-sonnet-20241022" := by
  unfold invokeAnthropicDirect at h
  rcases ho : env.anthropicOutcome with e | t <;> rw [ho] at h <;> dsimp only at h
  · exact absurd h (by simp)
  · by_cases ht : t = ""
    · rw [if_pos ht] at h
      exact absurd h (by simp)
    · rw [if_neg ht] at h
      injection h with h
      rw [← h]

/-- C3: on a primary error classified "unavailable", the fallback chain tries
the secondary only when configured (skipping it without error otherwise),
then the tertiary; the returned `modelUsed` is the secondary's hard-coded
model name or the tertiary's reported model; each provider is invoked at most
once. -/
theorem c3_fallback_chain (env : BedrockEnv) (e : JsErr)
    (h1 : invokeModel env = .error e)
    (h2 : isBedrockUnavailable env.endpointConfigured e = true) :
    (env.anthropicConfigured = false →
      analyzeHealthData env =
        (invokeOllama env, [ProviderTag.bedrock, ProviderTag.ollama])) ∧
    (∀ r, env.anthropicConfigured = true → invokeAnthropicDirect env = .ok r →
      analyzeHealthData env = (.ok r, [ProviderTag.bedrock, ProviderTag.anthropicDirect]) ∧
      r.modelUsed = "claude-3-5-sonnet-20241022") ∧
    (∀ e2, env.anthropicConfigured = true → invokeAnthropicDirect env = .error e2 →
      analyzeHealthData env =
        (invokeOllama env,
         [ProviderTag.bedrock, ProviderTag.anthropicDirect, ProviderTag.ollama])) ∧
    (∀ r, (analyzeHealthData env).1 = .ok r →
      r.modelUsed = "claude-3-5-sonnet-20241022" ∨ invokeOllama env = .ok r) ∧
    (analyzeHealthData env).2.Nodup := by
  have hmain : analyzeHealthData env =
      ((handleBedrockFallback env).1, .bedrock :: (handleBedrockFallback env).2) := by
    simp [analyzeHealthData, h1, h2]
  cases hc : env.anthropicConfigured with
  | false =>
    have hfb : handleBedrockFallback env = (invokeOllama env, [ProviderTag.ollama]) := by
      unfold handleBedrockFallback
      rw [hc]
      simp only [Bool.false_eq_true, if_false]
      cases invokeOllama env <;> rfl
    rw [hmain, hfb]
    refine ⟨fun _ => rfl, ?_, ?_, ?_,
      (by decide : ([ProviderTag.bedrock, ProviderTag.ollama] : List ProviderTag).Nodup)⟩
    · intro r hcontra; exact absurd hcontra (by decide)
    · intro e2 hcontra; exact absurd hcontra (by decide)
    · intro r hr; exact Or.inr hr
  | true =>
    cases hAnth : invokeAnthropicDirect env with
    | ok r0 =>
      have hfb : handleBedrockFallback env = (.ok r0, [ProviderTag.anthropicDirect]) := by
        unfold handleBedrockFallback
        rw [hc, if_pos rfl, hAnth]
      rw [hmain, hfb]
      refine ⟨?_, ?_, ?_, ?_,
        (by decide :
          ([ProviderTag.bedrock, ProviderTag.anthropicDirect] : List ProviderTag).Nodup)⟩
      · intro hcontra; exact absurd hcontra (by decide)
      · intro r _ hr
        have hr2 : r0 = r := by injection hr
        subst hr2
        exact ⟨rfl, anthropicDirect_model env r0 hAnth⟩
      · intro e2 _ hr
        exact absurd hr (by simp)
      · intro r hr
        have hr2 : r0 = r := by injection hr
        subst hr2
        exact Or.inl (anthropicDirect_model env r0 hAnth)
    | error e0 =>
      have hfb : handleBedrockFallback env =
          (invokeOllama env, [ProviderTag.anthropicDirect, ProviderTag.ollama]) := by
        unfold handleBedrockFallback
        rw [hc, if_pos rfl, hAnth]
        cases invokeOllama env <;> rfl
      rw [hmain, hfb]
      refine ⟨?_, ?_, ?_, ?_,
        (by decide :
          ([ProviderTag.bedrock, ProviderTag.anthropicDirect, ProviderTag.ollama] :
            List ProviderTag).Nodup)⟩
      · intro hcontra; exact absurd hcontra (by decide)
      · intro r _ hr
        exact absurd hr (by simp)
      · intro e2 _ _; rfl
      · intro r hr; exact Or.inr hr

/-- Witness for C3: LocalStack-style `InternalFailure` from the primary, a
configured and healthy secondary; the result is the secondary's answer with
its hard-coded model identifier, and only primary+secondary are invoked. -/
theorem c3_witness :
    analyzeHealthData envC3 =
      (.ok { analysisText := "direct answer", modelUsed := "claude-3-5-sonnet-20241022" },
       [ProviderTag.bedrock, ProviderTag.anthropicDirect]) :=
  ((c3_fallback_chain envC3 errC3 (by decide) (by decide)).2.1
    { analysisText := "direct answer", modelUsed := "claude-3-5-sonnet-20241022" }
    rfl (by decide)).1

/-! ## C7 -/

/-- C7: for every non-empty markdown string, a tokenizer error makes
`renderMarkdownToPDF` draw exactly the markdown stripped of markup as plain
text, and a throw inside any token-rendering step keeps the operations drawn
so far and appends the same stripped plain-text fallback; in both cases the
renderer returns normally instead of propagating the error. -/
theorem c7_render_fallback (lexer : String → Except String (List MdToken))
    (step : MdToken → Except String (List PdfOp)) (md : String) (hmd : md ≠ "") :
    (∀ e, lexer md = .error e →
      renderMarkdownToPDF lexer step md = [fallbackOp (toL md)]) ∧
    (∀ ts, lexer md = .ok ts → (runTokens step ts).2 = true →
      renderMarkdownToPDF lexer step md =
        (runTokens step ts).1 ++ [fallbackOp (toL md)]) := by
  constructor
  · intro e he
    simp [renderMarkdownToPDF, hmd, he]
  · intro ts hts hfail
    simp [renderMarkdownToPDF, hmd, hts, hfail]

/-- Witness for C7: a throwing tokenizer on concrete markdown yields exactly
the de-formatted plain text draw. -/
theorem c7_witness :
    renderMarkdownToPDF (fun _ => .error "tokenizer exception") renderStep
      "**Bold** and _italic_ text" =
      [PdfOp.textJustified "Bold and italic text"] := by
  have h := (c7_render_fallback (fun _ => .error "tokenizer exception") renderStep
    "**Bold** and _italic_ text" (by decide)).1 "tokenizer exception" rfl
  rw [h]
  decide

/-! ## C9 -/

/-- C9: when no summary section is found in a non-empty output the summary is
the first 2000 characters of the raw markdown; the literal
`Analysis complete` only appears for empty raw text; and when both a
(non-empty) summary and correlations section are extracted, the summary is
their concatenation with a blank line. -/
theorem c9_enhanced_summary (text : List Char) :
    (truthy (extractSectionL text summaryHeadersL) = false → text ≠ [] →
      enhancedSummaryL text = text.take 2000) ∧
    (text = [] → enhancedSummaryL text = toL "Analysis complete") ∧
    (∀ ls lc, extractSectionL text summaryHeadersL = some ls → ls ≠ [] →
      extractSectionL text corrHeadersL = some lc → lc ≠ [] →
      enhancedSummaryL text = ls ++ '\n' :: '\n' :: lc) := by
  refine ⟨?_, ?_, ?_⟩
  · intro hfalse hne
    have htake : text.take 2000 ≠ [] := by
      simp [List.take_eq_nil_iff, hne]
    unfold enhancedSummaryL
    cases hs : extractSectionL text summaryHeadersL with
    | none =>
      cases hcorr : extractSectionL text corrHeadersL with
      | none => simp [htake]
      | some lc => simp [htake]
    | some l =>
      have hl : l = [] := by
        rw [hs] at hfalse
        simpa [truthy] using hfalse
      subst hl
      cases hcorr : extractSectionL text corrHeadersL with
      | none => simp [htake]
      | some lc => simp [htake]
  · intro h
    subst h
    decide
  · intro ls lc h1 hls h2 hlc
    unfold enhancedSummaryL
    rw [h1, h2]
    simp [hls, hlc]

/-- Witness for C9: each clause at a concrete input. -/
theorem c9_witness :
    enhancedSummaryL (toL "no recognised sections here") =
      (toL "no recognised sections here").take 2000 ∧
    enhancedSummaryL (toL "") = toL "Analysis complete" ∧
    enhancedSummaryL (toL "## Summary\nS text\n## Clinical Correlations\nC text") =
      toL "S text" ++ '\n' :: '\n' :: toL "C text" :=
  ⟨(c9_enhanced_summary (toL "no recognised sections here")).1 (by decide) (by decide),
   (c9_enhanced_summary (toL "")).2.1 rfl,
   (c9_enhanced_summary (toL "## Summary\nS text\n## Clinical Correlations\nC text")).2.2
     (toL "S text") (toL "C text") (by decide) (by decide) (by decide) (by decide)⟩

/-! ## C10 -/

/-- C10: `extractSection` returns `null` both when no header style matches
any alias and when the markdown-header style matches but the section body is
empty after trimming and removal of the contained heading line — so `null`
does not distinguish the two situations. -/
theorem c10_null_ambiguity :
    (∀ text h raw, matchA h text = some raw →
      trimJS (removeFirstHashLine (trimJS raw)) = [] →
      extractSectionL text [h] = none) ∧
    (∀ text hs,
      (∀ h ∈ hs, matchA h text = none ∧ matchB h text = none ∧ matchC h text = none) →
      extractSectionL text hs = none) := by
  constructor
  · intro text h raw hm hcl
    unfold extractSectionL
    rw [hm]
    simp [hcl]
  · intro text hs
    induction hs with
    | nil => intro _; rfl
    | cons h t ih =>
      intro hall
      obtain ⟨ha, hb, hc⟩ := hall h (List.mem_cons_self h t)
      unfold extractSectionL
      rw [ha, hb, hc]
      exact ih (fun x hx => hall x (List.mem_cons_of_mem _ hx))

/-- Witness for C10: a present heading with an empty section yields `none`,
exactly like text with no matching header at all. -/
theorem c10_witness :
    extractSectionL (toL "## Summary\n## Next x") [toL "Summary"] = none ∧
    extractSectionL (toL "plain text") [toL "Summary"] = none :=
  ⟨c10_null_ambiguity.1 _ _ (toL "## Next x") (by decide) (by decide),
   c10_null_ambiguity.2 (toL "plain text") [toL "Summary"] (by decide)⟩

/-! ## C4 -/

/-- C4: whenever `extractList` over the canonical key-findings headers yields
zero items, the handler's key findings are exactly the full-text scan
(numbered lines first, else bulleted lines, first 10, markers stripped), and
whenever `extractList` over the recommendations headers yields zero items,
the recommendations are exactly the `## Recommendations` block scan. -/
theorem c4_fallback_scans (text : List Char) :
    (extractListL text findingsHeadersL = [] →
      finalKeyFindingsL text = kfFallbackScan text) ∧
    (extractListL text recHeadersL = [] →
      finalRecommendationsL text = recFallbackScan text) := by
  constructor
  · intro h
    by_cases ht : text = []
    · subst ht; decide
    · unfold finalKeyFindingsL kfFallbackScan
      rw [if_pos ⟨h, ht⟩, h]
  · intro h
    by_cases ht : text = []
    · subst ht; decide
    · unfold finalRecommendationsL recFallbackScan
      rw [if_pos ⟨h, ht⟩, h]

/-- Witness for C4 on text with no recognised headers but raw list lines. -/
theorem c4_witness :
    finalKeyFindingsL c4Text = kfFallbackScan c4Text ∧
    finalRecommendationsL c4Text = recFallbackScan c4Text :=
  ⟨(c4_fallback_scans c4Text).1 (by decide), (c4_fallback_scans c4Text).2 (by decide)⟩

/-! ## C5 -/

/-- C5 counterexample: on `"## Summary\n## Details\nstuff"` with alias
`Summary`, the text between the matched heading line and the next markdown
heading is empty, but `extractSection` returns `"stuff"` — the content from
beyond the next heading, with that heading line removed. -/
theorem c5_counterexample :
    extractSectionL c5Input [toL "Summary"] = some (toL "stuff") ∧
    specSectionTextL c5Input (toL "Summary") = some [] ∧
    (some (toL "stuff") : Option (List Char)) ≠ some [] := by
  decide

theorem matchAAt_skip2 (h : List Char) (a b : Char) (s : List Char)
    (hab : ¬(a = '#' ∧ b = '#')) : matchAAt h (a :: b :: s) = none := by
  unfold matchAAt
  split
  · rename_i heq
    have h1 := (List.cons.inj heq).1
    have h2 := (List.cons.inj (List.cons.inj heq).2).1
    exact absurd ⟨h1, h2⟩ hab
  · rfl

theorem infixL_cons_elim {pat : List Char} {c : Char} {l : List Char}
    (h : infixL pat (c :: l) = false) :
    startsWithL pat (c :: l) = false ∧ infixL pat l = false := by
  rw [show infixL pat (c :: l) = (startsWithL pat (c :: l) || infixL pat l) from rfl] at h
  exact Bool.or_eq_false_iff.mp h

theorem matchA_through_pre (h s : List Char) :
    ∀ pre : List Char, infixL ['#', '#'] pre = false → pre.getLast? ≠ some '#' →
      matchA h (pre ++ s) = matchA h s := by
  intro pre
  induction pre with
  | nil => intro _ _; rfl
  | cons p pre ih =>
    intro h1 h2
    obtain ⟨hsw, hrest⟩ := infixL_cons_elim h1
    rw [List.cons_append]
    cases pre with
    | nil =>
      have hp : p ≠ '#' := by
        intro he
        exact h2 (by rw [he]; rfl)
      simp only [List.nil_append]
      simp only [matchA, matchAAt_skip h p s hp]
    | cons q pre2 =>
      have hskip : matchAAt h (p :: ((q :: pre2) ++ s)) = none := by
        by_cases hp : p = '#'
        · have hq : q ≠ '#' := by
            intro he
            rw [hp, he] at hsw
            simp [startsWithL] at hsw
          rw [List.cons_append]
          exact matchAAt_skip2 h p q (pre2 ++ s) (fun hc => hq hc.2)
        · exact matchAAt_skip h p _ hp
      simp only [matchA, hskip]
      rw [List.getLast?_cons_cons] at h2
      exact ih hrest h2

theorem dropWhile_append_all (p : Char → Bool) (l m : List Char)
    (hl : l.all p = true) : (l ++ m).dropWhile p = m.dropWhile p := by
  induction l with
  | nil => rfl
  | cons a l ih =>
    rw [List.all_cons, Bool.and_eq_true] at hl
    rw [List.cons_append, List.dropWhile_cons, if_pos hl.1]
    exact ih hl.2

theorem dropAfterNl_cons_ne (t : Char) (r : List Char) (ht : t ≠ '\n') :
    dropAfterNl (t :: r) = dropAfterNl r := by
  unfold dropAfterNl
  split
  · rename_i heq
    exact absurd heq (by simp)
  · rename_i x r2 heq
    exact absurd (List.cons.inj heq).1 ht
  · rename_i x c r3 heq
    obtain ⟨e1, e2⟩ := List.cons.inj heq
    subst e2
    rw [dropAfterNl.eq_def]

theorem dropAfterNl_append (tail X : List Char) (h : '\n' ∉ tail) :
    dropAfterNl (tail ++ '\n' :: X) = some X := by
  induction tail with
  | nil => rfl
  | cons t ts ih =>
    have ht : t ≠ '\n' := fun he => h (he ▸ List.mem_cons_self t ts)
    have hts : '\n' ∉ ts := fun hm => h (List.mem_cons_of_mem _ hm)
    rw [List.cons_append, dropAfterNl_cons_ne t _ ht]
    exact ih hts

theorem startsWithL_hh_through (r2 sep : List Char)
    (hsep : sep = [] ∨ ∃ s2, sep = '\n' :: s2)
    (h : startsWithL ['#', '#'] (r2 ++ sep) = true) :
    startsWithL ['#', '#'] r2 = true := by
  cases r2 with
  | nil =>
    exfalso
    rcases hsep with rfl | ⟨s2, rfl⟩
    · simp [startsWithL] at h
    · simp [startsWithL] at h
  | cons x r3 =>
    cases r3 with
    | nil =>
      exfalso
      rcases hsep with rfl | ⟨s2, rfl⟩
      · simp [startsWithL] at h
      · simp [startsWithL] at h
    | cons y t =>
      simp only [List.cons_append, startsWithL] at h ⊢
      simpa using h

theorem captureA_through (body sep : List Char)
    (hb : infixL ['\n', '#', '#'] body = false)
    (hsep : sep = [] ∨ ∃ s2, sep = '\n' :: '#' :: '#' :: s2) :
    captureA (body ++ sep) = body := by
  induction body with
  | nil =>
    rcases hsep with rfl | ⟨s2, rfl⟩
    · rfl
    · simp [captureA, startsWithL]
  | cons b r2 ih =>
    obtain ⟨hsw, hrest⟩ := infixL_cons_elim hb
    rw [List.cons_append, captureA_cons, ih hrest]
    by_cases hbn : b = '\n'
    · subst hbn
      have hR : startsWithL ['#', '#'] (r2 ++ sep) = false := by
        cases hRc : startsWithL ['#', '#'] (r2 ++ sep)
        · rfl
        · exfalso
          have hkey := startsWithL_hh_through r2 sep
            (by rcases hsep with rfl | ⟨s2, rfl⟩
                · exact Or.inl rfl
                · exact Or.inr ⟨'#' :: '#' :: s2, rfl⟩) hRc
          rw [show startsWithL ['\n', '#', '#'] ('\n' :: r2) =
            startsWithL ['#', '#'] r2 from by simp [startsWithL], hkey] at hsw
          exact absurd hsw (by decide)
      simp [hR]
    · simp [hbn]

theorem rmHashLineGo_keep (s : List Char) :
    ∀ b : Bool, (b = true → startsWithL ['#', '#'] s = false) →
      infixL ['\n', '#', '#'] s = false → infixL ['\r', '#', '#'] s = false →
      rmHashLineGo b s = s := by
  induction s with
  | nil => intro b _ _ _; rfl
  | cons x r ih =>
    intro b hb h1 h2
    obtain ⟨h1s, h1r⟩ := infixL_cons_elim h1
    obtain ⟨h2s, h2r⟩ := infixL_cons_elim h2
    have hcond : (b && decide (x = '#') && startsWithL ['#'] r) = false := by
      cases b with
      | false => simp
      | true =>
        have hsf := hb rfl
        by_cases hx : x = '#'
        · subst hx
          simp only [startsWithL] at hsf
          simp at hsf
          simp [hsf]
        · simp [hx]
    have hnext : isLineTerm x = true → startsWithL ['#', '#'] r = false := by
      intro hx
      cases hR : startsWithL ['#', '#'] r
      · rfl
      · exfalso
        have hor : x = '\n' ∨ x = '\r' := by
          simpa [isLineTerm] using hx
        rcases hor with rfl | rfl
        · rw [show startsWithL ['\n', '#', '#'] ('\n' :: r) =
            startsWithL ['#', '#'] r from by simp [startsWithL], hR] at h1s
          exact absurd h1s (by decide)
        · rw [show startsWithL ['\r', '#', '#'] ('\r' :: r) =
            startsWithL ['#', '#'] r from by simp [startsWithL], hR] at h2s
          exact absurd h2s (by decide)
    unfold rmHashLineGo
    rw [hcond]
    simp only [Bool.false_eq_true, if_false]
    rw [ih (isLineTerm x) hnext h1r h2r]

theorem startsWithL_append_right (pat u v : List Char)
    (h : startsWithL pat u = true) : startsWithL pat (u ++ v) = true := by
  induction pat generalizing u with
  | nil => rfl
  | cons p ps ih =>
    cases u with
    | nil => simp [startsWithL] at h
    | cons a r =>
      simp only [startsWithL, Bool.and_eq_true] at h
      simp only [List.cons_append, startsWithL, Bool.and_eq_true]
      exact ⟨h.1, ih r h.2⟩

theorem infixL_append_left (pat u v : List Char)
    (h : infixL pat v = true) : infixL pat (u ++ v) = true := by
  induction u with
  | nil => exact h
  | cons a r ih =>
    rw [List.cons_append]
    cases v with
    | nil =>
      cases pat with
      | nil => simp [infixL, startsWithL]
      | cons p ps => simp [infixL, startsWithL] at h
    | cons b s =>
      rw [show infixL pat (a :: (r ++ b :: s)) =
        (startsWithL pat (a :: (r ++ b :: s)) || infixL pat (r ++ b :: s)) from rfl]
      rw [ih]
      simp

theorem infixL_prefix_mono (pat u v : List Char)
    (h : infixL pat u = true) : infixL pat (u ++ v) = true := by
  induction u with
  | nil =>
    cases pat with
    | nil => cases v with
      | nil => rfl
      | cons b s => simp [infixL, startsWithL]
    | cons p ps => simp [infixL, startsWithL] at h
  | cons a r ih =>
    rw [show infixL pat (a :: r) = (startsWithL pat (a :: r) || infixL pat r) from rfl,
      Bool.or_eq_true] at h
    rw [List.cons_append,
      show infixL pat (a :: (r ++ v)) =
        (startsWithL pat (a :: (r ++ v)) || infixL pat (r ++ v)) from rfl]
    rcases h with h | h
    · rw [show a :: (r ++ v) = (a :: r) ++ v from rfl,
        startsWithL_append_right pat (a :: r) v h]
      simp
    · rw [ih h]; simp

theorem infixL_trimJS_false (pat s : List Char)
    (h : infixL pat s = false) : infixL pat (trimJS s) = false := by
  cases hT : infixL pat (trimJS s)
  · rfl
  · exfalso
    have hrev : (trimJS s).reverse = (s.dropWhile isWs).reverse.dropWhile isWs := by
      unfold trimJS; rw [List.reverse_reverse]
    have hpre : trimJS s <+: s.dropWhile isWs := by
      refine List.reverse_suffix.mp ?_
      rw [hrev]
      exact List.dropWhile_suffix isWs
    obtain ⟨v, hv⟩ := hpre
    obtain ⟨u, hu⟩ := List.dropWhile_suffix (l := s) isWs
    have : infixL pat s = true := by
      rw [← hu, ← hv]
      exact infixL_append_left pat u _ (infixL_prefix_mono pat _ v hT)
    rw [this] at h
    exact absurd h (by decide)

theorem matchAAt_heading_hh (hs ws1 h2 tail X : List Char) (c w0 : Char)
    (hhs : hs.all (fun x => x = '#') = true)
    (hws : (w0 :: ws1).all isWs = true)
    (hcw : isWs c = false) (htail : '\n' ∉ tail) :
    matchAAt (c :: h2)
      ('#' :: '#' :: (hs ++ (w0 :: (ws1 ++ ((c :: h2) ++ (tail ++ '\n' :: X)))))) =
      some (captureA X) := by
  have hw0ws : isWs w0 = true := by
    rw [List.all_cons, Bool.and_eq_true] at hws
    exact hws.1
  have hw0 : w0 ≠ '#' := by
    intro he
    rw [he] at hw0ws
    exact absurd hw0ws (by decide)
  have e1 : (hs ++ (w0 :: (ws1 ++ ((c :: h2) ++ (tail ++ '\n' :: X))))).dropWhile
      (fun x => x = '#') = w0 :: (ws1 ++ ((c :: h2) ++ (tail ++ '\n' :: X))) := by
    rw [dropWhile_append_all _ _ _ hhs, List.dropWhile_cons, if_neg (by simp [hw0])]
  have e2 : (w0 :: (ws1 ++ ((c :: h2) ++ (tail ++ '\n' :: X)))).dropWhile isWs =
      (c :: h2) ++ (tail ++ '\n' :: X) := by
    rw [show w0 :: (ws1 ++ ((c :: h2) ++ (tail ++ '\n' :: X))) =
      (w0 :: ws1) ++ ((c :: h2) ++ (tail ++ '\n' :: X)) from rfl,
      dropWhile_append_all _ _ _ hws]
    rw [List.cons_append, List.dropWhile_cons, if_neg (by simp [hcw])]
  unfold matchAAt
  split
  · rename_i r0 heq
    obtain ⟨-, h2eq⟩ := List.cons.inj heq
    obtain ⟨-, hr0⟩ := List.cons.inj h2eq
    subst hr0
    rw [e1]
    dsimp only
    rw [if_pos hw0ws, e2, chompCI_self]
    dsimp only
    rw [dropAfterNl_append tail X htail]
  · rename_i hne
    exact absurd rfl (hne _)

theorem extractSectionA_general (pre hs ws1 h2 tail body sep : List Char) (c w0 : Char)
    (hpre1 : infixL ['#', '#'] pre = false) (hpre2 : pre.getLast? ≠ some '#')
    (hhs : hs.all (fun x => x = '#') = true)
    (hws : (w0 :: ws1).all isWs = true)
    (hcw : isWs c = false) (htail : '\n' ∉ tail)
    (hsep : sep = [] ∨ ∃ s2, sep = '\n' :: '#' :: '#' :: s2)
    (hb1 : infixL ['\n', '#', '#'] body = false)
    (hb2 : infixL ['\r', '#', '#'] body = false)
    (hb3 : startsWithL ['#', '#'] (trimJS body) = false)
    (hbt : trimJS body ≠ []) :
    extractSectionL
      (pre ++ '#' :: '#' ::
        (hs ++ (w0 :: (ws1 ++ ((c :: h2) ++ (tail ++ '\n' :: (body ++ sep)))))))
      [c :: h2] = some (trimJS body) := by
  have hmA : matchA (c :: h2)
      (pre ++ '#' :: '#' ::
        (hs ++ (w0 :: (ws1 ++ ((c :: h2) ++ (tail ++ '\n' :: (body ++ sep))))))) =
      some body := by
    rw [matchA_through_pre (c :: h2) _ pre hpre1 hpre2]
    unfold matchA
    rw [matchAAt_heading_hh hs ws1 h2 tail (body ++ sep) c w0 hhs hws hcw htail]
    dsimp only
    rw [captureA_through body sep hb1 hsep]
  have hclean : trimJS (removeFirstHashLine (trimJS body)) = trimJS body := by
    rw [show removeFirstHashLine (trimJS body) = rmHashLineGo true (trimJS body) from rfl,
      rmHashLineGo_keep (trimJS body) true (fun _ => hb3)
        (infixL_trimJS_false _ _ hb1) (infixL_trimJS_false _ _ hb2),
      trimJS_idem]
  unfold extractSectionL
  rw [hmA]
  dsimp only
  rw [hclean, if_neg hbt]

/-- C5 (amended): for every markdown input in which the first style-A heading
candidate (no earlier occurrence of `##`, with any prefix whose last character
is not `#`) is a heading line of the general form `##+` + whitespace + alias +
rest-of-line, `extractSection` returns exactly the text between that heading
line and the next markdown heading line (or the end of the text), trimmed —
provided that text is non-empty after trimming, does not start with `##` after
trimming, and contains no line terminator followed by `##`.  (When the
between-text trims to empty the result is instead `null` or content from
beyond the next heading; see the counterexample.) -/
theorem c5_amended_section_between (pre hs ws1 h2 tail body rest : List Char) (c w0 : Char)
    (hpre1 : infixL ['#', '#'] pre = false) (hpre2 : pre.getLast? ≠ some '#')
    (hhs : hs.all (fun x => x = '#') = true)
    (hws : (w0 :: ws1).all isWs = true)
    (hcw : isWs c = false) (htail : '\n' ∉ tail)
    (hb1 : infixL ['\n', '#', '#'] body = false)
    (hb2 : infixL ['\r', '#', '#'] body = false)
    (hb3 : startsWithL ['#', '#'] (trimJS body) = false)
    (hbt : trimJS body ≠ []) :
    extractSectionL
      (pre ++ '#' :: '#' ::
        (hs ++ (w0 :: (ws1 ++ ((c :: h2) ++ (tail ++ '\n' :: body))))))
      [c :: h2] = some (trimJS body) ∧
    extractSectionL
      (pre ++ '#' :: '#' ::
        (hs ++ (w0 :: (ws1 ++ ((c :: h2) ++
          (tail ++ '\n' :: (body ++ '\n' :: '#' :: '#' :: rest)))))))
      [c :: h2] = some (trimJS body) := by
  constructor
  · have h := extractSectionA_general pre hs ws1 h2 tail body [] c w0
      hpre1 hpre2 hhs hws hcw htail (Or.inl rfl) hb1 hb2 hb3 hbt
    simpa using h
  · exact extractSectionA_general pre hs ws1 h2 tail body
      ('\n' :: '#' :: '#' :: rest) c w0 hpre1 hpre2 hhs hws hcw htail
      (Or.inr ⟨rest, rfl⟩) hb1 hb2 hb3 hbt

/-- Witness for C5's amended theorem at two concrete documents: a `###`
heading with tab whitespace and trailing header text, once with the section
running to the end of the text and once followed by a next heading. -/
theorem c5_witness :
    extractSectionL (toL "Intro.\n### \tKey Findings extra\nBody one.\nBody two.")
      [toL "Key Findings"] = some (toL "Body one.\nBody two.") ∧
    extractSectionL
      (toL "Intro.\n### \tKey Findings extra\nBody one.\nBody two.\n## Next\nzzz")
      [toL "Key Findings"] = some (toL "Body one.\nBody two.") := by
  have h := c5_amended_section_between (toL "Intro.\n") ['#'] ['\t'] (toL "ey Findings")
    (toL " extra") (toL "Body one.\nBody two.") (toL " Next\nzzz") 'K' ' '
    (by decide) (by decide) (by decide) (by decide) (by decide) (by decide)
    (by decide) (by decide) (by decide) (by decide)
  obtain ⟨h1, h2⟩ := h
  constructor
  · rw [show (toL "Intro.\n" ++ '#' :: '#' ::
      (['#'] ++ (' ' :: (['\t'] ++ (('K' :: toL "ey Findings") ++
        (toL " extra" ++ '\n' :: toL "Body one.\nBody two.")))))) =
      toL "Intro.\n### \tKey Findings extra\nBody one.\nBody two." from by decide,
      show ('K' :: toL "ey Findings") = toL "Key Findings" from by decide,
      show trimJS (toL "Body one.\nBody two.") = toL "Body one.\nBody two."
        from by decide] at h1
    exact h1
  · rw [show (toL "Intro.\n" ++ '#' :: '#' ::
      (['#'] ++ (' ' :: (['\t'] ++ (('K' :: toL "ey Findings") ++
        (toL " extra" ++ '\n' :: (toL "Body one.\nBody two." ++
          '\n' :: '#' :: '#' :: toL " Next\nzzz"))))))) =
      toL "Intro.\n### \tKey Findings extra\nBody one.\nBody two.\n## Next\nzzz"
        from by decide,
      show ('K' :: toL "ey Findings") = toL "Key Findings" from by decide,
      show trimJS (toL "Body one.\nBody two.") = toL "Body one.\nBody two."
        from by decide] at h2
    exact h2


/-! ## C8 -/

theorem renderTokenOps_no_provider (t : MdToken) (p : ProviderTag) :
    PdfOp.providerCall p ∉ renderTokenOps t := by
  cases t with
  | heading d s => simp [renderTokenOps]
  | paragraph s => simp [renderTokenOps]
  | listTok o items => simp [renderTokenOps, List.mem_map]
  | code s => simp [renderTokenOps]
  | blockquote s => simp [renderTokenOps]
  | hr => simp [renderTokenOps]
  | other o => cases o <;> simp [renderTokenOps]

theorem runTokens_no_provider (ts : List MdToken) (p : ProviderTag) :
    PdfOp.providerCall p ∉ (runTokens renderStep ts).1 := by
  induction ts with
  | nil => simp [runTokens]
  | cons t ts ih =>
    simp [runTokens, renderStep, List.mem_append, ih, renderTokenOps_no_provider]

theorem renderMarkdown_no_provider (lexer : String → Except String (List MdToken))
    (md : String) (p : ProviderTag) :
    PdfOp.providerCall p ∉ renderMarkdownToPDF lexer renderStep md := by
  unfold renderMarkdownToPDF
  split
  · simp
  · split
    · simp [fallbackOp]
    · rename_i x ts heq
      dsimp only
      split <;> simp [List.mem_append, runTokens_no_provider, fallbackOp]

theorem not_mem_appendOp {a : PdfOp} {l1 l2 : List PdfOp} (h1 : a ∉ l1) (h2 : a ∉ l2) :
    a ∉ l1 ++ l2 := by
  intro hm
  rcases List.mem_append.mp hm with h | h
  exacts [h1 h, h2 h]

theorem recOp_ne_provider (q : Nat × String) (p : ProviderTag) :
    recOp q ≠ PdfOp.providerCall p := by
  unfold recOp
  split <;> simp

/-- C8: `generatePDF` is a pure function of the stored `AnalysisResult`
value (given the fixed process locale and tokenizer): two invocations on the
same value produce the identical draw-operation sequence, and no operation in
it invokes a model provider. -/
theorem c8_generatePDF_deterministic (toLocale : Nat → String)
    (lexer : String → Except String (List MdToken)) (r1 r2 : AnalysisResult)
    (h : r1 = r2) :
    pdfOps toLocale lexer r1 = pdfOps toLocale lexer r2 ∧
    ∀ p, PdfOp.providerCall p ∉ pdfOps toLocale lexer r1 := by
  subst h
  refine ⟨rfl, fun p => ?_⟩
  have htitle : PdfOp.providerCall p ∉ pdfTitleOps toLocale r1 := by
    simp [pdfTitleOps]
  have hmodel : PdfOp.providerCall p ∉ pdfModelLineOps r1 := by
    unfold pdfModelLineOps
    cases r1.modelUsed with
    | none => simp
    | some m => split <;> simp
  have hdocs : PdfOp.providerCall p ∉ pdfDocNamesOps r1 := by
    unfold pdfDocNamesOps
    cases r1.documentNames with
    | none => simp
    | some names => split <;> simp [List.mem_map]
  have hsum : PdfOp.providerCall p ∉ pdfSummaryOps r1 := by
    simp [pdfSummaryOps]
  have hkv : PdfOp.providerCall p ∉ pdfKeyValuesOps r1 := by
    unfold pdfKeyValuesOps
    cases r1.keyValues with
    | none => simp
    | some kvs => split <;> simp
  have hkf : PdfOp.providerCall p ∉ pdfKeyFindingsOps r1 := by
    unfold pdfKeyFindingsOps
    split <;> simp
  have hrec : PdfOp.providerCall p ∉ pdfRecommendationOps r1 := by
    unfold pdfRecommendationOps
    split
    · intro hm
      rcases List.mem_cons.mp hm with h | h
      · exact absurd h.symm (by simp)
      · obtain ⟨q, _, hq⟩ := List.mem_map.mp h
        exact recOp_ne_provider q p hq
    · simp
  have hq : PdfOp.providerCall p ∉ pdfQuestionOps r1 := by
    unfold pdfQuestionOps
    cases r1.questionsForDoctor with
    | none => simp
    | some qs => split <;> (try split) <;> simp [List.mem_map]
  have happ : PdfOp.providerCall p ∉ pdfAppendixOps lexer r1 := by
    unfold pdfAppendixOps
    split
    · intro hm
      rcases List.mem_cons.mp hm with h | h
      · exact absurd h.symm (by simp)
      · rcases List.mem_cons.mp h with h2 | h2
        · exact absurd h2.symm (by simp)
        · exact renderMarkdown_no_provider lexer r1.fullReport p h2
    · simp
  have hfoot : PdfOp.providerCall p ∉ pdfFooterOps := by
    simp [pdfFooterOps]
  unfold pdfOps
  exact not_mem_appendOp (not_mem_appendOp (not_mem_appendOp (not_mem_appendOp
    (not_mem_appendOp (not_mem_appendOp (not_mem_appendOp (not_mem_appendOp
      (not_mem_appendOp htitle hmodel) hdocs) hsum) hkv) hkf) hrec) hq) happ) hfoot

/-- Witness for C8 at a concrete stored report. -/
theorem c8_witness :
    pdfOps (fun _ => "1/1/2025, 12:00:00 AM") (fun _ => .ok []) sampleReport =
      pdfOps (fun _ => "1/1/2025, 12:00:00 AM") (fun _ => .ok []) sampleReport ∧
    ∀ p, PdfOp.providerCall p ∉
      pdfOps (fun _ => "1/1/2025, 12:00:00 AM") (fun _ => .ok []) sampleReport :=
  c8_generatePDF_deterministic (fun _ => "1/1/2025, 12:00:00 AM") (fun _ => .ok [])
    sampleReport sampleReport rfl

end HW
